import Mathlib

/-!
A verification development for the LogMagic heuristic parsing core
(`utils.py`, `core.py`): a string-and-bracket aware scanner, a recursive
parameter decomposer and a priority-ordered statement classifier.

Modelling conventions, used throughout:

* Python strings are `List Char`; Python's `-1` "not found" convention and
  negative slice indices are kept by letting positions be `Int`.
* Raised exceptions (the `infinite()` iteration-ceiling `Exception` and
  `IndexError`) are `Except.error ()`; every operation that can raise lives
  in the monad `M := Except Unit`.
* `for _ in infinite():` loops take a fuel argument starting at
  `maxIterations = 200`; a loop body may run 200 times and the 201st
  request errors, exactly as the Python generator raises.
* Genuinely terminating recursion (`find_matching_parens`, `parse_params`)
  additionally carries structural fuel initialised above the input length,
  so that the recursion is total in Lean; that fuel never runs out on the
  concrete executions below.
* Regular expressions are translated pattern by pattern; `.` is modelled as
  "any character" and `$` as end of input (the inputs are single editor
  lines), and Python's `\s`, `str.strip` and `str.isdigit` use the ASCII
  classes.
-/

namespace LogMagic

/-- Source text is modelled as a list of characters. -/
abbrev Str := List Char

/-- Turn a Lean string literal into the model's character lists. -/
def str (s : String) : Str := s.data

/-- Python whitespace (the `\s` class and the default `strip` set). -/
def isPyWs (c : Char) : Bool :=
  c = ' ' || c = '\t' || c = '\n' || c = '\r' || c = '\x0b' || c = '\x0c'

/-- Python `s.strip(chars)`; drops the given characters from both ends. -/
def pyStripChars (chars : Str) (s : Str) : Str :=
  ((s.dropWhile (chars.contains ·)).reverse.dropWhile (chars.contains ·)).reverse

/-- Python `s.lstrip(chars)`. -/
def pyLStripChars (chars : Str) (s : Str) : Str := s.dropWhile (chars.contains ·)

/-- Python `s.rstrip(chars)`. -/
def pyRStripChars (chars : Str) (s : Str) : Str :=
  (s.reverse.dropWhile (chars.contains ·)).reverse

/-- Python `s.strip()` (default whitespace set). -/
def pyStrip (s : Str) : Str :=
  ((s.dropWhile isPyWs).reverse.dropWhile isPyWs).reverse

/-- Python `s.lstrip()`. -/
def pyLStrip (s : Str) : Str := s.dropWhile isPyWs

/-- Python `s.rstrip()`. -/
def pyRStrip (s : Str) : Str := (s.reverse.dropWhile isPyWs).reverse

/-- First list index `i ≥ start` at which `sub` occurs in `s`. The fuel is
an embedding artifact (structural recursion, so that terms reduce): the
scan stops once `start` passes `length − |sub|`, so the seed
`s.length + 2` used by `pyFind` below always suffices. -/
def pyFindAux (s sub : Str) : Nat → Nat → Option Nat
  | 0, _ => none
  | fuel + 1, start =>
    if sub = [] then (if start ≤ s.length then some start else none)
    else if s.length < start + sub.length then none
    else if sub.isPrefixOf (s.drop start) then some start
    else pyFindAux s sub fuel (start + 1)

/-- Python `s.find(sub, start)`: −1 when absent; a negative `start` counts
from the end of the string. -/
def pyFind (s sub : Str) (start : Int := 0) : Int :=
  match pyFindAux s sub (s.length + 2)
      (if start < 0 then (s.length + start).toNat else start.toNat) with
  | some i => (i : Int)
  | none => -1

/-- Python `s.rfind(sub)`: the highest index of an occurrence, −1 when absent. -/
def pyRFind (s sub : Str) : Int :=
  match ((List.range (s.length + 1)).filter
      (fun i => decide (i + sub.length ≤ s.length) && sub.isPrefixOf (s.drop i))).getLast? with
  | some i => (i : Int)
  | none => -1

/-- Resolve one Python slice bound against a length. -/
def sliceIdx (len : Nat) (i : Int) : Nat :=
  if i < 0 then (len + i).toNat else min i.toNat len

/-- Python `s[a:b]`. -/
def pySlice (s : Str) (a b : Int) : Str :=
  (s.take (sliceIdx s.length b)).drop (sliceIdx s.length a)

/-- Python `s[a:]`. -/
def pySliceFrom (s : Str) (a : Int) : Str := pySlice s a s.length

/-- Python `s[:b]`. -/
def pySliceTo (s : Str) (b : Int) : Str := pySlice s 0 b

/-- Python `s[i]` (a negative index counts from the end); `none` models an
`IndexError`. -/
def pyGet (s : Str) (i : Int) : Option Char :=
  let j : Int := if i < 0 then s.length + i else i
  if 0 ≤ j ∧ j < s.length then s.get? j.toNat else none

/-- Python `s.replace(old, new)` for a one-character `old` (the only form
the code uses). -/
def pyReplaceChar (s : Str) (old : Char) (new : Str) : Str :=
  s.foldr (fun c acc => (if c = old then new else [c]) ++ acc) []

/-- Python `s.isdigit()` over the ASCII digits. -/
def pyIsDigit (s : Str) : Bool := !s.isEmpty && s.all Char.isDigit

/-- Python `sub in s` (substring containment). -/
def pyContains (s sub : Str) : Bool := pyFind s sub 0 ≠ -1

/-- Python `s.split(c)[0]` — the text before the first `c`. -/
def pySplitFirst (s : Str) (c : Char) : Str := s.takeWhile (· ≠ c)

/-- The result monad: `Except.error ()` models a raised Python exception
(the `infinite()` ceiling `Exception`, or an `IndexError`). -/
abbrev M (α : Type) : Type := Except Unit α

theorem bind_ok {α β : Type} {e : M α} {f : α → M β} {b : β} :
    (e >>= f) = .ok b ↔ ∃ a, e = .ok a ∧ f a = .ok b := by
  cases e <;> simp [Bind.bind, Except.bind]

/-- `utils.infinite`'s ceiling: a guarded loop body may run at most this many
times; requesting one more iteration raises. -/
def maxIterations : Nat := 200

theorem sliceIdx_coe (len i : Nat) : sliceIdx len (i : Int) = min i len := by
  unfold sliceIdx
  rw [if_neg (by omega)]
  simp

theorem pySlice_coe (s : Str) (a b : Nat) :
    pySlice s (a : Int) (b : Int) = (s.take b).drop a := by
  unfold pySlice
  rw [sliceIdx_coe, sliceIdx_coe]
  rw [List.take_eq_take.2 (by omega : min (min b s.length) s.length
    = min b s.length)]
  rcases le_or_lt a s.length with h | h
  · rw [min_eq_left h]
  · rw [min_eq_right (le_of_lt h)]
    rw [List.drop_eq_nil_of_le (by simp),
      List.drop_eq_nil_of_le (by simp; omega)]

theorem pySliceTo_coe (s : Str) (b : Nat) : pySliceTo s (b : Int) = s.take b := by
  have h0 : (0 : Int) = ((0 : Nat) : Int) := rfl
  rw [pySliceTo, h0, pySlice_coe]
  simp

theorem pySliceFrom_coe (s : Str) (a : Nat) :
    pySliceFrom s (a : Int) = s.drop a := by
  have hl : ((s.length : Nat) : Int) = (s.length : Int) := rfl
  rw [pySliceFrom, ← hl, pySlice_coe]
  simp

theorem pySliceFrom_negCoe (s : Str) (k : Nat) (hk : 0 < k) :
    pySliceFrom s (-(k : Int)) = s.drop (s.length - k) := by
  simp only [pySliceFrom, pySlice, sliceIdx]
  have h1 : ¬ ((s.length : Int) < 0) := by omega
  have h2 : (-(k : Int) < 0) := by omega
  rw [if_neg h1, if_pos h2]
  have h3 : ((s.length : Int) + -(k : Int)).toNat = s.length - k := by omega
  simp [h3]

/-- The regular-expression patterns the code hands to the scanners,
translated one by one. Lookarounds inspect only the string being searched
(`re.search` runs on a slice, so a lookbehind cannot see past its start). -/
inductive Pat : Type
  /-- a literal pattern with no special characters (`===`, `!==`, `==`) -/
  | lit (sub : Str)
  /-- `(?<!=)=(?!=)` -/
  | eqSimple
  /-- `(?<![<>=])=(?!=)` -/
  | eqAssign
  /-- `(?<![<>])=(?!\>)` -/
  | eqNoArrow
  /-- `(?<!=)>` -/
  | gtNotAfterEq
  /-- `(?<=\s)w(?=\s)` for a word `w` (`and`, `or`, `is`, `isnt`, `in`) -/
  | wordOp (w : Str)
  /-- `\sw\s` for a word `w` (`\sif\s`, `\sunless\s`, `\sfor\s`) -/
  | wsWordWs (w : Str)
deriving DecidableEq

/-- Does `p` match `s` at index `i`? -/
def patMatchAt (p : Pat) (s : Str) (i : Nat) : Bool :=
  match p with
  | .lit sub =>
      decide (i + sub.length ≤ s.length) && sub.isPrefixOf (s.drop i)
  | .eqSimple =>
      s.get? i == some '=' && (i == 0 || !(s.get? (i - 1) == some '='))
        && !(s.get? (i + 1) == some '=')
  | .eqAssign =>
      s.get? i == some '='
        && (i == 0 || !(s.get? (i - 1) == some '<' || s.get? (i - 1) == some '>'
              || s.get? (i - 1) == some '='))
        && !(s.get? (i + 1) == some '=')
  | .eqNoArrow =>
      s.get? i == some '='
        && (i == 0 || !(s.get? (i - 1) == some '<' || s.get? (i - 1) == some '>'))
        && !(s.get? (i + 1) == some '>')
  | .gtNotAfterEq =>
      s.get? i == some '>' && (i == 0 || !(s.get? (i - 1) == some '='))
  | .wordOp w =>
      (match s.get? (i - 1) with | some c => decide (1 ≤ i) && isPyWs c | none => false)
        && decide (i + w.length ≤ s.length) && w.isPrefixOf (s.drop i)
        && (match s.get? (i + w.length) with | some c => isPyWs c | none => false)
  | .wsWordWs w =>
      (match s.get? i with | some c => isPyWs c | none => false)
        && decide (i + 1 + w.length ≤ s.length) && w.isPrefixOf (s.drop (i + 1))
        && (match s.get? (i + 1 + w.length) with | some c => isPyWs c | none => false)

/-- Index of the first match of `p` in `s` at or after `i`; fuel as in
`pyFindAux` (the seed `s.length + 1` from `i = 0` always suffices). -/
def patSearchAux (p : Pat) (s : Str) : Nat → Nat → Option Nat
  | 0, _ => none
  | fuel + 1, i =>
    if i < s.length then
      if patMatchAt p s i then some i else patSearchAux p s fuel (i + 1)
    else none

/-- `re.search(p, s)`: index of the first match of `p` in `s`, −1 if none. -/
def patSearch (p : Pat) (s : Str) : Int :=
  match patSearchAux p s (s.length + 1) 0 with
  | some i => (i : Int)
  | none => -1

/-- The `char` argument of `find_not_in_string` and the scanners built on
it: either a plain literal (a bare string or a `{'str': …}` object — both
are searched with `input.find`) or a `{'re': …}` pattern object. -/
inductive CharSpec : Type
  | s (sub : Str)
  | re (p : Pat)
deriving DecidableEq

/-- `count_backslashes(input, from_pos)`: the length of the run of
backslashes that ends at `from_pos` and extends leftwards (0 when
`from_pos < 0`). -/
def count_backslashes (input : Str) (from_pos : Int) : Nat :=
  if from_pos < 0 then 0
  else ((input.take (from_pos.toNat + 1)).reverse.takeWhile (· = '\\')).length

/-- The inner loop of `find_strings`: advance to the next unescaped
occurrence of `delim` strictly after `next` (−1 when none remains). -/
def fsInner (input : Str) (delim : Char) : Nat → Int → M Int
  | 0, _ => .error ()
  | fuel + 1, next => do
    let next := pyFind input [delim] (next + 1)
    if next = -1 then return -1
    else if count_backslashes input (next - 1) % 2 = 0 then return next
    else fsInner input delim fuel next

/-- The outer loop of `find_strings` for one quote character: find an
unescaped opening, then its closing; an opening with no closing yields a
span to the end of the input and stops the scan for this character. -/
def fsOuter (input : Str) (delim : Char) :
    Nat → Int → List (Nat × Nat) → M (List (Nat × Nat))
  | 0, _, _ => .error ()
  | fuel + 1, start, acc => do
    let first := pyFind input [delim] (start + 1)
    if first = -1 then return acc
    else
      let start := first + 1
      if count_backslashes input (first - 1) % 2 ≠ 0 then
        fsOuter input delim fuel start acc
      else do
        let next ← fsInner input delim maxIterations first
        if next = -1 then return acc ++ [(first.toNat, input.length)]
        else fsOuter input delim fuel next (acc ++ [(first.toNat, next.toNat)])

/-- `utils.STRING_DELIMITERS`. -/
def STRING_DELIMITERS : List Char := ['"', '\'', '`']

/-- Python `sorted` on pairs of naturals: lexicographic order. -/
def pairLe (a b : Nat × Nat) : Prop := a.1 < b.1 ∨ (a.1 = b.1 ∧ a.2 ≤ b.2)

instance : DecidableRel pairLe := fun a b => by unfold pairLe; infer_instance

instance : IsTotal (Nat × Nat) pairLe :=
  ⟨fun a b => by unfold pairLe; omega⟩

instance : IsTrans (Nat × Nat) pairLe :=
  ⟨fun a b c hab hbc => by unfold pairLe at *; omega⟩

/-- Python `sorted` on a list of pairs (stable, lexicographic). -/
def sortPairs (l : List (Nat × Nat)) : List (Nat × Nat) :=
  l.insertionSort pairLe

/-- `utils.find_strings(input)`: the string-literal spans of `input`, one
scan per quote character, merged and sorted. -/
def find_strings (input : Str) : M (List (Nat × Nat)) := do
  let ranges ← STRING_DELIMITERS.foldlM
    (fun acc d => fsOuter input d maxIterations (-1) acc) []
  return sortPairs ranges

/-- One probe of `find_not_in_string`'s loop: the next occurrence of `char`
at or after `index`. A `{'re': …}` probe searches the slice
`input[index:]`, and — as in the source, where the result is rebuilt with
`matches and index + matches.start(0) or -1` — a match sitting at absolute
position 0 is reported as absent, `0` being falsy. -/
def fnisProbe (input : Str) (char : CharSpec) (index : Int) : Int :=
  match char with
  | .s sub => pyFind input sub index
  | .re p =>
    let m := patSearch p (pySliceFrom input index)
    if m = -1 then -1 else if index + m = 0 then -1 else index + m

/-- The loop of `find_not_in_string`: skip occurrences inside string spans. -/
def fnisLoop (input : Str) (char : CharSpec) (ranges : List (Nat × Nat)) :
    Nat → Int → M Int
  | 0, _ => .error ()
  | fuel + 1, index => do
    let index := fnisProbe input char index
    if index = -1 then return -1
    else if ranges.any (fun s =>
        decide ((s.1 : Int) ≤ index) && decide (index ≤ (s.2 : Int))) then
      fnisLoop input char ranges fuel (index + 1)
    else return index

/-- `utils.find_not_in_string(input, char, start)`. -/
def find_not_in_string (input : Str) (char : CharSpec) (start : Int := 0) :
    M Int := do
  let string_ranges ← find_strings input
  fnisLoop input char string_ranges maxIterations start

/-- The `for i in infinite()` loop inside `find_matching_parens`,
parameterised by the recursive call `next` (the nested
`find_matching_parens(input, …, start, True)`). -/
def fmpLoopF (input : Str) (op cl : Char)
    (next : Int → M (Option (Nat × Nat))) :
    Nat → Int → Option (Nat × Nat) → Int → M (Option (Nat × Nat))
  | 0, _, _, _ => .error ()
  | lfuel + 1, start, firstInner, opening => do
    let innerParens ← next start
    let firstInner := if firstInner = none then innerParens else firstInner
    let start := match innerParens with
      | some p => (p.2 : Int) + 1
      | none => start
    let nextOpening ← find_not_in_string input (.s [op]) start
    let nextClosing ← find_not_in_string input (.s [cl]) start
    if nextClosing ≠ -1 ∧ (nextOpening = -1 ∨ nextOpening > nextClosing) then
      return some (opening.toNat, nextClosing.toNat)
    else if innerParens = none then return firstInner
    else fmpLoopF input op cl next lfuel start firstInner opening

/-- `utils.find_matching_parens(input, char_opening, char_closing, start,
_recursion)`: the first matching bracket pair at or after `start`. `rfuel`
bounds the nesting recursion; the Python recursion advances `start`
strictly, so its depth is bounded by the input length, and the wrapper
below seeds `rfuel` above that bound. -/
def fmpGo (input : Str) (op cl : Char) : Nat → Int → Bool →
    M (Option (Nat × Nat))
  | 0, _, _ => .error ()
  | rfuel + 1, start, rec => do
    let opening ← find_not_in_string input (.s [op]) start
    let closing ← find_not_in_string input (.s [cl]) start
    if opening = -1 ∨ (rec ∧ closing < opening) then return none
    else
      fmpLoopF input op cl (fun st => fmpGo input op cl rfuel st true)
        maxIterations (opening + 1) none opening

/-- `utils.find_matching_parens` with its Python defaults. -/
def find_matching_parens (input : Str) (op : Char := '(') (cl : Char := ')')
    (start : Int := 0) : M (Option (Nat × Nat)) :=
  fmpGo input op cl (input.length + 3) start false

/-- The loop of `rfind_matching_parens` (`en` is the Python `end` bound). -/
def rfmpLoop (input : Str) (op cl : Char) (en : Int) :
    Nat → Int → Option (Nat × Nat) → M (Option (Nat × Nat))
  | 0, _, _ => .error ()
  | fuel + 1, start, last => do
    let parens ← find_matching_parens input op cl start
    match parens with
    | none => return last
    | some p =>
      if en ≠ -1 ∧ (p.2 : Int) ≥ en then return last
      else rfmpLoop input op cl en fuel ((p.2 : Int) + 1) (some p)

/-- `utils.rfind_matching_parens(input, char_opening, char_closing, end)`. -/
def rfind_matching_parens (input : Str) (op : Char := '(') (cl : Char := ')')
    (en : Int := -1) : M (Option (Nat × Nat)) :=
  rfmpLoop input op cl en maxIterations 0 none

/-- The loop of `find_all_matching_parens`. -/
def famLoop (input : Str) (op cl : Char) :
    Nat → Int → List (Nat × Nat) → M (List (Nat × Nat))
  | 0, _, _ => .error ()
  | fuel + 1, start, acc => do
    let parens ← find_matching_parens input op cl start
    match parens with
    | none => return acc
    | some p => famLoop input op cl fuel ((p.1 : Int) + 1) (acc ++ [p])

/-- `utils.find_all_matching_parens(input, char_opening, char_closing, start)`. -/
def find_all_matching_parens (input : Str) (op : Char := '(')
    (cl : Char := ')') (start : Int := 0) : M (List (Nat × Nat)) := do
  let all ← famLoop input op cl maxIterations start []
  return sortPairs all

/-- The loop of `find_all_not_in_strings`. -/
def fansLoop (input : Str) (char : CharSpec) :
    Nat → Int → List Int → M (List Int)
  | 0, _, _ => .error ()
  | fuel + 1, next, acc => do
    let next ← find_not_in_string input char (next + 1)
    if next = -1 then return acc
    else fansLoop input char fuel next (acc ++ [next])

/-- `utils.find_all_not_in_strings(input, char)`. -/
def find_all_not_in_strings (input : Str) (char : CharSpec) : M (List Int) :=
  fansLoop input char maxIterations (-1) []

/-- The loop of `find_all_not_in_parens_or_strings`: positions of `char`
outside strings whose offset is not strictly inside any bracket span. -/
def fanpsLoop (input : Str) (char : CharSpec) (all_parens : List (Nat × Nat)) :
    Nat → Int → List Int → M (List Int)
  | 0, _, _ => .error ()
  | fuel + 1, next, acc => do
    let next ← find_not_in_string input char (next + 1)
    if next = -1 then return acc
    else
      let acc := if (all_parens.filter (fun p =>
          decide ((p.1 : Int) < next) && decide (next < (p.2 : Int)))).length = 0
        then acc ++ [next] else acc
      fanpsLoop input char all_parens fuel next acc

/-- `utils.find_all_not_in_parens_or_strings(input, char, parens)`. -/
def find_all_not_in_parens_or_strings (input : Str) (char : CharSpec)
    (parens : Str := ['(', '[', '{']) : M (List Int) := do
  let ap1 ← if parens.contains '(' then find_all_matching_parens input '(' ')'
    else pure []
  let ap2 ← if parens.contains '[' then find_all_matching_parens input '[' ']'
    else pure []
  let ap3 ← if parens.contains '{' then find_all_matching_parens input '{' '}'
    else pure []
  fanpsLoop input char (ap1 ++ ap2 ++ ap3) maxIterations (-1) []

/-- One family's check inside `is_wrapped`. -/
def iwCheck (input : Str) (op cl : Char) : M Bool := do
  match ← find_matching_parens input op cl with
  | some p =>
      return decide (p.1 = 0) && decide ((p.2 : Int) = (input.length : Int) - 1)
  | none => return false

/-- `utils.is_wrapped(input, paren_types)`. -/
def is_wrapped (input : Str) (paren_types : Str := ['(', '[', '{']) :
    M Bool := do
  if paren_types.contains '(' then
    if ← iwCheck input '(' ')' then return true
  if paren_types.contains '[' then
    if ← iwCheck input '[' ']' then return true
  if paren_types.contains '{' then
    if ← iwCheck input '{' '}' then return true
  return false

/-- The loop body count of the `while … is_wrapped …` loops: each pass
strips two characters, so `length + 1` fuel always suffices. -/
def unwrapWhileF (paren_types : Str) : Nat → Str → M Str
  | 0, _ => .error ()
  | fuel + 1, input => do
    if input = [] then return input
    else
      let w ← is_wrapped input paren_types
      if w then unwrapWhileF paren_types fuel (pySlice input 1 (-1))
      else return input

/-- `while input and utils.is_wrapped(input, paren_types): input = input[1:-1]`
(the paren-unwrapping loops of `clean_line`, `clean_param`, `parse_params`
and `parse_strategy_simple_var`). -/
def unwrapWhile (paren_types : Str) (input : Str) : M Str :=
  unwrapWhileF paren_types (input.length + 1) input

/-- One entry of `utils.PARAM_DELIMITERS`: a `{'str': …}` or
`{'re': …, 'len': …}` object (`olen` is the optional `'len'` key). -/
structure Delim where
  spec : CharSpec
  olen : Option Nat

/-- `utils.PARAM_DELIMITERS`, entry for entry (including the duplicated
`-`). -/
def PARAM_DELIMITERS : List Delim :=
  [ ⟨.s [','], none⟩, ⟨.s ['+'], none⟩, ⟨.s ['-'], none⟩, ⟨.s ['*'], none⟩,
    ⟨.s ['/'], none⟩, ⟨.s ['-'], none⟩, ⟨.s ['&', '&'], none⟩,
    ⟨.s ['|', '|'], none⟩, ⟨.s ['<'], none⟩, ⟨.s ['<', '='], none⟩,
    ⟨.s ['>', '='], none⟩, ⟨.s ['?', '='], none⟩,
    ⟨.re (.lit (str "===")), some 3⟩, ⟨.re (.lit (str "!==")), some 3⟩,
    ⟨.re (.lit (str "==")), some 2⟩, ⟨.re .gtNotAfterEq, some 1⟩,
    ⟨.re (.wordOp (str "and")), some 3⟩, ⟨.re (.wordOp (str "or")), some 2⟩,
    ⟨.re (.wordOp (str "is")), some 2⟩, ⟨.re (.wordOp (str "isnt")), some 4⟩,
    ⟨.re (.wordOp (str "in")), some 2⟩ ]

/-- `delim.get('len') or len(delim['str'])`. -/
def delimLen (d : Delim) : Nat :=
  match d.olen with
  | some n => n
  | none => match d.spec with | .s sub => sub.length | .re _ => 0

/-- `utils.INTERESTING_INDICATORS`. -/
def INTERESTING_INDICATORS : List CharSpec :=
  [ .s [','], .s ['+'], .s ['-'], .s ['/'], .s ['*'], .s ['&'], .s ['|'],
    .s ['%'], .re (.wordOp (str "in")), .re (.wordOp (str "and")),
    .re (.wordOp (str "or")), .re (.wordOp (str "is")),
    .re (.wordOp (str "isnt")) ]

/-- `utils.PARAM_DELIMITERS_STRIP`. -/
def PARAM_DELIMITERS_STRIP : Str := str ",+-*/-&&||><=="

/-- `core.get_param_type`'s result values (`''`, `'string'`, `'statement'`). -/
inductive PType : Type
  | empty
  | string
  | statement
deriving DecidableEq

/-- A parameter descriptor (`{'name': …, 'type': …}`). -/
structure PDescr where
  name : Str
  type : PType
deriving DecidableEq

/-- `core.get_param_type(input)`. -/
def get_param_type (input : Str) : PType :=
  match input with
  | [] => .empty
  | c :: _ =>
    if STRING_DELIMITERS.contains c ∧ input.getLast? = some c then .string
    else .statement

/-- The quote and bracket characters `filter_params` strips. -/
def quoteBracketChars : Str := ['"', '`', '\'', '[', ']', '(', ')', '{', '}']

/-- The constant literals `filter_params` rejects. -/
def constantNames : List Str :=
  [str "true", str "false", str "null", str "undefined"]

/-- The per-name tests of `core.filter_params` (everything except the
duplicate check): non-empty after quote/bracket stripping, not a constant
literal, no leading or trailing dot, not numeric once dots are removed. -/
def filterPass (name : Str) : Bool :=
  !(pyStripChars quoteBracketChars name).isEmpty
    && !(constantNames.contains name)
    && !(['.'].isPrefixOf name)
    && !(['.'].isSuffixOf name)
    && !(pyIsDigit (pyReplaceChar name '.' []))

/-- The loop of `core.filter_params`; `seen` is the `unique_names` set. -/
def filterLoop (seen : List Str) : List PDescr → List PDescr
  | [] => []
  | d :: rest =>
    if !(seen.contains d.name) && filterPass d.name then
      d :: filterLoop (d.name :: seen) rest
    else filterLoop seen rest

/-- `core.filter_params(params)`. -/
def filter_params (params : List PDescr) : List PDescr := filterLoop [] params

/-- One bracket family's pass of the `clean_param` unbalanced-bracket
repair. -/
def cpBalance (input : Str) (op cl : Char) : M Str := do
  let opening_parens ← find_all_not_in_strings input (.s [op])
  let closing_parens ← find_all_not_in_strings input (.s [cl])
  if closing_parens.length < opening_parens.length then
    match opening_parens.head? with
    | some p => if p = 0 then return pySliceFrom input 1 else return pySliceTo input p
    | none => return input
  else if opening_parens.length < closing_parens.length then
    match closing_parens.getLast? with
    | some p =>
        if p = (input.length : Int) - 1 then return pySlice input 0 (-1)
        else return pySliceTo input p
    | none => return input
  else return input

/-- `core.clean_param(input)`. -/
def clean_param (input : Str) : M Str := do
  let input := pyStripChars (str " \t;") input
  let if_pos ← find_not_in_string input (.re (.wsWordWs (str "if")))
  let input := if if_pos ≠ -1 then pyStrip (pySliceTo input if_pos) else input
  let unless_pos ← find_not_in_string input (.re (.wsWordWs (str "unless")))
  let input := if unless_pos ≠ -1 then pyStrip (pySliceTo input unless_pos) else input
  let for_pos ← find_not_in_string input (.re (.wsWordWs (str "for")))
  let input := if for_pos ≠ -1 then pyStrip (pySliceTo input for_pos) else input
  let input ← unwrapWhile ['(', '[', '{'] input
  let equal_pos ← find_not_in_string input (.s ['='])
  let input := if equal_pos ≠ -1 then pyStrip (pySliceTo input equal_pos) else input
  if input = [] then return input
  let input ← unwrapWhile ['(', '[', '{'] input
  let input := pyStripChars (str " \t;?") input
  let input := if (str "...").isPrefixOf input then pySliceFrom input 3 else input
  let input ← cpBalance input '(' ')'
  let input ← cpBalance input '[' ']'
  let input ← cpBalance input '{' '}'
  return input

/-- The flowtype identifier class `[^\s\(\)\[\]\{\}+*/&\|=,:~-]`. -/
def isFlowTypeChar (c : Char) : Bool :=
  !(isPyWs c || ['(', ')', '[', ']', '{', '}', '+', '*', '/', '&', '|', '=',
      ',', ':', '~', '-'].contains c)

/-- `re.match(r'^{.+}\s*:\s*[^\s\(\)\[\]\{\}+*/&\|=,:~-]+', input)`: a brace
group directly followed by a top-level type annotation (`.+` backtracks
over every possible closing brace, so any viable split matches). -/
def matchesDestructFlow (input : Str) : Bool :=
  match input with
  | c :: _ =>
    c = '{' &&
      (List.range input.length).any (fun j =>
        decide (2 ≤ j) && (input.get? j == some '}') &&
          (match (input.drop (j + 1)).dropWhile isPyWs with
           | ':' :: rest2 =>
             match rest2.dropWhile isPyWs with
             | d :: _ => isFlowTypeChar d
             | [] => false
           | _ => false))
  | [] => false

/-- `re.match(r'(?<![^\s\(\)\[\]\{\}+*/&\|=<>,:~-])as\s+(.+)$', input)`:
anchored at position 0 (where the lookbehind is vacuous) this strips a
leading `as` plus whitespace; when only whitespace follows, `\s+`
backtracks and the group keeps one whitespace character. -/
def asMatch (input : Str) : Option Str :=
  match input with
  | 'a' :: 's' :: rest =>
    let k := (rest.takeWhile isPyWs).length
    if k = 0 then none
    else if k < rest.length then some (rest.drop k)
    else if 2 ≤ k then some (rest.drop (k - 1))
    else none
  | _ => none

/-- The destructuring-excision scan of `parse_params`: for each top-level
plain `=`, if a `{` follows (after optional whitespace), record the range
to cut out. Reading one past a final `=` raises `IndexError` in the
source, modelled by the error case. -/
def ppDestructRanges (input : Str) (equals : List Int) : M (List (Int × Int)) :=
  match equals with
  | [] => return []
  | equal :: rest =>
    match pyGet input (equal + 1) with
    | none => .error ()
    | some c =>
      if c = '>' then ppDestructRanges input rest
      else
        let str_remaining := pyLStrip (pySliceFrom input (equal + 1))
        if !(['{'].isPrefixOf str_remaining) then ppDestructRanges input rest
        else do
          let parens ← find_matching_parens input '{' '}' (equal + 1)
          let r : Int × Int := match parens with
            | some p => (equal, (p.2 : Int) + 1)
            | none => (equal, pyFind input ['{'] equal + 1)
          let tail ← ppDestructRanges input rest
          return r :: tail

/-- `for d_range in reversed(destruct_ranges): input = input[:a] + input[b:]`. -/
def ppRemoveRanges (input : Str) (ranges : List (Int × Int)) : Str :=
  ranges.reverse.foldl (fun s r => pySliceTo s r.1 ++ pySliceFrom s r.2) input

/-- One split offset with the matched delimiter's length. -/
structure SplitPoint where
  pos : Int
  len : Nat
deriving DecidableEq

/-- All top-level split offsets of `parse_params`, delimiter by delimiter. -/
def ppSplitPoints (input : Str) : M (List SplitPoint) :=
  PARAM_DELIMITERS.foldlM (fun acc delim => do
    let points ← find_all_not_in_parens_or_strings input delim.spec
    return acc ++ points.map (fun p => SplitPoint.mk p (delimLen delim))) []

/-- Python's stable `sorted(split_points, key=lambda x: x['pos'])`. -/
def sortSplitPoints (l : List SplitPoint) : List SplitPoint :=
  l.insertionSort (fun a b => a.pos ≤ b.pos)

/-- `input_split`: the segments of `input` between consecutive split
points, plus the tail after the last one. -/
def ppSegments (input : Str) (sp : List SplitPoint) : List Str :=
  ((List.range sp.length).map (fun i =>
    let start : Int := if i = 0 then 0 else
      match sp.get? (i - 1) with
      | some q => q.pos + (q.len : Int)
      | none => 0
    let stop : Int := match sp.get? i with | some q => q.pos | none => 0
    pySlice input start stop))
  ++ (match sp.getLast? with
      | some q => [pySliceFrom input (q.pos + (q.len : Int))]
      | none => [])

/-- Steps 3–4 of `parse_params`: destructuring excision and mode
selection, returning the trimmed input and the (possibly forced-off)
flowtype flag. -/
def ppPrepare (input0 : Str) (flow0 : Bool) : M (Str × Bool) := do
  let equals ← find_all_not_in_parens_or_strings input0 (.re .eqSimple)
  let dranges ← ppDestructRanges input0 equals
  let input := pyStrip (ppRemoveRanges input0 dranges)
  if input = [] then return (input, flow0)
  else do
    let w ← is_wrapped input ['{', '[']
    if w then return (pySlice input 1 (-1), false)
    else if matchesDestructFlow input then
      let colon := pyRFind input [':']
      return (pySlice (pyStrip (pySliceTo input colon)) 1 (-1), false)
    else return (input, flow0)

/-- The base (single-parameter) case of `parse_params`. -/
def ppBase (input : Str) (flow : Bool) : M (List PDescr) := do
  if pyContains input (str "=>") || pyContains input (str "function") then
    return []
  else do
    let colon_pos ← find_all_not_in_parens_or_strings input (.s [':'])
    let input :=
      match colon_pos.head? with
      | some c =>
          if flow then pyRStrip (pySliceTo input c)
          else pyRStrip (pySliceFrom input (c + 1))
      | none => input
    let input := match asMatch input with | some g => g | none => input
    let param ← clean_param input
    return filter_params [⟨param, get_param_type param⟩]

/-- `core.parse_params(input, _flowtype_enabled)`, with fuel for the
recursion on segments (each segment is strictly shorter than the input, so
`length + 1` fuel, supplied by `parse_params` below, always suffices). -/
def ppGo : Nat → Str → Bool → M (List PDescr)
  | 0, _, _ => .error ()
  | fuel + 1, input0, flow0 => do
    let input ← unwrapWhile ['('] (pyStrip input0)
    if input = [] then return []
    else do
      let (input, flow) ← ppPrepare input flow0
      let split_points0 ← ppSplitPoints input
      if (sortSplitPoints split_points0).isEmpty then ppBase input flow
      else do
        let params ← (ppSegments input (sortSplitPoints split_points0)).foldlM
          (fun acc seg => do
            let param := pyStripChars (PARAM_DELIMITERS_STRIP ++ str " \t") seg
            if param = [] then return acc
            else do
              let ps ← ppGo fuel param flow
              return acc ++ ps) []
        return filter_params params

/-- `core.parse_params(input, _flowtype_enabled=True)`. -/
def parse_params (input : Str) (flowtype_enabled : Bool := true) :
    M (List PDescr) :=
  ppGo (input.length + 1) input flowtype_enabled

/-- `re.match(r'^(\s*import\s+.+)\s+from', input)`: the greedy (hence
longest) group before a whitespace-then-`from` tail. -/
def importMatch (input : Str) : Option Str :=
  let i0 := (input.takeWhile isPyWs).length
  if (str "import").isPrefixOf (input.drop i0) then
    let j0 := i0 + 6
    match input.get? j0 with
    | some c =>
      if isPyWs c then
        match ((List.range (input.length + 1)).filter (fun p =>
            decide (j0 + 2 ≤ p) &&
              (match input.drop p with
               | h :: t => isPyWs h &&
                   (str "from").isPrefixOf ((h :: t).dropWhile isPyWs)
               | [] => false))).getLast? with
        | some p => some (input.take p)
        | none => none
      else none
    | none => none
  else none

/-- `re.match(r'^(\s*for\s+.+)\s+in\s*.+$', input)`: the greedy group
before a whitespace-then-`in` tail that still leaves a nonempty iterable. -/
def forMatch (input : Str) : Option Str :=
  let i0 := (input.takeWhile isPyWs).length
  if (str "for").isPrefixOf (input.drop i0) then
    let j0 := i0 + 3
    match input.get? j0 with
    | some c =>
      if isPyWs c then
        match ((List.range (input.length + 1)).filter (fun p =>
            decide (j0 + 2 ≤ p) &&
              (match input.drop p with
               | h :: t => isPyWs h &&
                   (let t2 := (h :: t).dropWhile isPyWs
                    (str "in").isPrefixOf t2 && !(t2.drop 2).isEmpty)
               | [] => false))).getLast? with
        | some p => some (input.take p)
        | none => none
      else none
    | none => none
  else none

/-- `core.clean_line(input)`. -/
def clean_line (input : Str) : M Str := do
  let input := pyStrip input
  let point ← find_not_in_string input (.s ['/', '/'])
  let input := if point ≠ -1 then pyRStrip (pySliceTo input point) else input
  let point ← find_not_in_string input (.s ['#'])
  let input := if point ≠ -1 then pyRStrip (pySliceTo input point) else input
  let input ← unwrapWhile ['(', '[', '{'] input
  if input = [] then return input
  let input := pyStrip (pySplitFirst (pyStripChars [';'] input) ';')
  let input ← unwrapWhile ['(', '[', '{'] input
  let input := match importMatch input with | some g => g | none => input
  let input := match forMatch input with | some g => g | none => input
  return input

/-- `core.clean_identifier(input)`. -/
def clean_identifier (input : Str) : Str :=
  let input := pyStripChars (str " \t;+<>-") input
  if (str "...").isPrefixOf input then pySliceFrom input 3 else input

/-- Modelled from the spec: `utils.get_setting('max_identifier_length', 21)`
reads host configuration, which is outside the core; outside the host the
default 21 applies. -/
def max_identifier_length : Nat := 21

/-- `utils.shorten(input)`. -/
def shorten (input : Str) : Str :=
  if input.length ≤ max_identifier_length then input
  else pySliceTo input ((max_identifier_length : Int) - 6) ++ str "..."
    ++ pySliceFrom input (-3)

/-- The identifier class `[^\s\(\)\[\]\{\}+*/&\|=<>,:~-]` of the
classifier's regexes. -/
def isNameChar (c : Char) : Bool :=
  !(isPyWs c || ['(', ')', '[', ']', '{', '}', '+', '*', '/', '&', '|', '=',
      '<', '>', ',', ':', '~', '-'].contains c)

/-- A strategy dict: either key may be missing or hold Python `None`
(both are `none` here — `strat.get` cannot tell them apart); a
present-but-empty string is `some []`. -/
structure Strat where
  identifier_str : Option Str := none
  param_str : Option Str := none
deriving DecidableEq

/-- `_parse_assignee(input)` (inside `create_log_statement`). -/
def parseAssignee (input : Str) : M (Option Str) := do
  if input = [] then return none
  let equals ← find_all_not_in_parens_or_strings input (.re .eqAssign)
  let colons ← find_all_not_in_parens_or_strings input (.s [':'])
  if equals = [] ∧ colons = [] then return none
  let input := match equals.head? with
    | some e => pyRStrip (pySliceTo input e)
    | none => input
  let input := match colons.head? with
    | some c => pyRStrip (pySliceTo input c)
    | none => input
  let input :=
    if (str "var ").isPrefixOf input then pyLStrip (pySliceFrom input 3)
    else if (str "let ").isPrefixOf input then pyLStrip (pySliceFrom input 3)
    else if (str "const ").isPrefixOf input then pyLStrip (pySliceFrom input 5)
    else input
  return some input

/-- The while-loop of `_parse_function_name`, walking back over trailing
balanced `()`/`[]`/`{}` groups into `extra`; `input[-1]` on an emptied
string raises `IndexError` (the error case). -/
def pfnLoop (fuel : Nat) (input extra : Str) : M (Option (Str × Str)) :=
  match fuel with
  | 0 => .error ()
  | fuel + 1 =>
    match input.getLast? with
    | none => .error ()
    | some c =>
      if c = ')' ∨ c = '}' ∨ c = ']' then do
        let op : Char := if c = ')' then '(' else if c = ']' then '[' else '{'
        let parens ← rfind_matching_parens input op c
        match parens with
        | none => return none
        | some p =>
          if (p.2 : Int) ≠ (input.length : Int) - 1 then return none
          else
            pfnLoop fuel (pySliceTo input (p.1 : Int))
              (pySlice input (p.1 : Int) ((p.2 : Int) + 1) ++ extra)
      else return some (input, extra)

/-- `_parse_function_name(input)` (inside `create_log_statement`). -/
def parseFunctionName (input : Str) : M (Option Str) := do
  if input = [] then return none
  match ← pfnLoop (input.length + 1) input [] with
  | none => return none
  | some (input, extra) =>
    let input := pyRStripChars
      ['-', '=', '>', ':', '(', ')', '[', ']', '{', '}', ' ', '\t'] input
    let run := (input.reverse.takeWhile isNameChar).reverse
    let name := if run ≠ [] then pyStripChars ['.'] run ++ extra else extra
    if name = str "function" then return none
    else if name = [] then return none
    else return some name

/-- `re.match(r'^\s*w', input)` for a literal word `w`. -/
def matchWsThen (w : Str) (input : Str) : Bool :=
  w.isPrefixOf (input.dropWhile isPyWs)

/-- `re.match(r'^\s*export(?!\s+function)', input)`. -/
def matchExport (input : Str) : Bool :=
  let t := input.dropWhile isPyWs
  (str "export").isPrefixOf t &&
    !(match t.drop 6 with
      | h :: r => isPyWs h && (str "function").isPrefixOf ((h :: r).dropWhile isPyWs)
      | [] => false)

/-- `re.match(r'^.*((function\s*([^\s…]+)?\s*\()|(\=\>)|(\-\>))', input)`
as a Boolean: the line contains `=>`, `->`, or `function` followed by
optional whitespace, an optional identifier and an opening parenthesis. -/
def matchesFunctionDef (input : Str) : Bool :=
  pyContains input (str "=>") || pyContains input (str "->")
    || (List.range input.length).any (fun i =>
        (str "function").isPrefixOf (input.drop i) &&
          (let t := (input.drop (i + 8)).dropWhile isPyWs
           let t2 := t.dropWhile isNameChar
           let t3 := t2.dropWhile isPyWs
           t3.head? == some '('))

/-- `re.match(r'([^\s…]+)\s*:\s*[^\(\)]*$', input)` as a Boolean: a
label-style definition without parentheses (`foo: ->`). -/
def matchesFwpa (input : Str) : Bool :=
  let run := input.takeWhile isNameChar
  !run.isEmpty &&
    (match (input.drop run.length).dropWhile isPyWs with
     | ':' :: rest => rest.all (fun c => !(c = '(' || c = ')'))
     | _ => false)

/-- `parse_strategy_simple_var(input, take_inner)`. -/
def parse_strategy_simple_var (input : Str) (take_inner : Bool) :
    M (Option Strat) := do
  let input ← unwrapWhile ['(', '[', '{'] input
  let is_assignment ← find_all_not_in_parens_or_strings input (.re .eqNoArrow)
  let is_return := matchWsThen (str "return") input
  let is_import := matchWsThen (str "import") input
  let is_for := matchWsThen (str "for(") input
  let is_export := matchExport input
  let is_function := matchesFunctionDef input
  let is_fwpa := matchesFwpa input
  if (is_assignment = [] ∧ ¬is_fwpa ∧ ¬is_return ∧ ¬is_export ∧ ¬is_import)
      ∨ (is_function ∧ take_inner ∧ ¬is_fwpa) then
    return none
  else
    let (ident?, input) :=
      if is_return then
        (some (str "return"),
          let t := pyLStrip (pySliceFrom input (pyFind input (str "return") + 6))
          if (str "if ").isPrefixOf t then pyLStrip (pySliceFrom t 3)
          else if (str "unless ").isPrefixOf t then pyLStrip (pySliceFrom t 7)
          else t)
      else if is_import then
        (some (str "import"),
          pyLStrip (pySliceFrom input (pyFind input (str "import") + 6)))
      else if is_export then
        (some (str "export"),
          pyLStrip (pySliceFrom input (pyFind input (str "export") + 6)))
      else if is_for then
        (some (str "for"),
          pyStrip (pySlice input (pyFind input (str "for") + 4)
            (pyFind input [';'])))
      else ((none : Option Str), input)
    do
      let a ← parseAssignee input
      let input := match a with
        | some s => if s = [] then input else s
        | none => input
      let ident? := match ident? with | some s => some s | none => some input
      if is_fwpa then return some { identifier_str := ident? }
      else return some { identifier_str := ident?, param_str := some input }

/-- One `[find_not_in_string(x, i) for i in INTERESTING_INDICATORS]`
comprehension of `parse_strategy_value`, keeping the hits. -/
def interestingHits (x : Str) : M (List Int) :=
  INTERESTING_INDICATORS.foldlM (fun acc i => do
    let r ← find_not_in_string x i
    return if r ≠ -1 then acc ++ [r] else acc) []

/-- `parse_strategy_value(input, take_inner)`. -/
def parse_strategy_value (input : Str) (take_inner : Bool) :
    M (Option Strat) := do
  let strat? ← parse_strategy_simple_var input take_inner
  match strat? with
  | none => return none
  | some strat => do
    let equals ← find_all_not_in_parens_or_strings input (.re .eqNoArrow)
    match equals.head? with
    | none => return none
    | some e0 => do
      let inputV := pyLStrip (pySliceFrom input (e0 + 1))
      if ← is_wrapped inputV then return (some strat)
      else do
        let iiAssignment ← interestingHits inputV
        let iiAssignee ← interestingHits
          (match strat.identifier_str with | some s => s | none => [])
        if iiAssignment ≠ [] ∧ iiAssignee = [] then do
          let inputV ←
            if ¬take_inner then do
              let fn ← find_all_not_in_parens_or_strings inputV (.s (str "function"))
              match fn.head? with
              | some f => pure (pySliceTo inputV f)
              | none => do
                let ar1 ← find_all_not_in_parens_or_strings inputV (.s (str "=>"))
                let ar2 ← find_all_not_in_parens_or_strings inputV (.s (str "->"))
                let arrows := ar1 ++ ar2
                let parens ← rfind_matching_parens inputV
                match parens with
                | some p =>
                    if arrows ≠ [] then pure (pySliceTo inputV (p.1 : Int))
                    else pure inputV
                | none => pure inputV
            else pure inputV
          return some { strat with param_str := some inputV }
        else return none

/-- The argument class `[^\s=<>\(\)\[\]\{\}]` of the coffee-call regex. -/
def isCoffeeArgChar (c : Char) : Bool :=
  !(isPyWs c || ['=', '<', '>', '(', ')', '[', ']', '{', '}'].contains c)

/-- `re.findall(r'^(else if|[^\s…]+)\s+([^\s=<>\(\)\[\]\{\}]+.*)\s*$', input)`:
try the `else if` alternative first, then a name-class run; group 2 runs
greedily to the end of the line. -/
def coffeeMatch (input : Str) : Option (Str × Str) :=
  let tryAlt : Str → Option (Str × Str) := fun g1 =>
    let rest := input.drop g1.length
    let k := (rest.takeWhile isPyWs).length
    if k = 0 then none
    else
      match rest.drop k with
      | h :: t => if isCoffeeArgChar h then some (g1, h :: t) else none
      | [] => none
  match (if (str "else if").isPrefixOf input then tryAlt (str "else if")
         else none) with
  | some r => some r
  | none =>
    let run := input.takeWhile isNameChar
    if run.isEmpty then none else tryAlt run

/-- `parse_strategy_params_coffee(input, take_inner)`. -/
def parse_strategy_params_coffee (input : Str) (_take_inner : Bool) :
    M (Option Strat) := do
  match coffeeMatch input with
  | none => return none
  | some (g1, g2) =>
    if [str "export", str "default", str "return", str "new", str "import",
        str "export", str "function"].contains g1 then return none
    else
      let ident := pyStrip g1
      let param := pyStrip g2
      if [str "var", str "let", str "const", str "function"].contains ident then
        return none
      else return some { identifier_str := some ident, param_str := some param }

/-- The tail test of `re.search(r'([^\s…]+)\s*\(?(\(\s*\))?\s*$', t)`:
does `rest` (after the captured name run) match `\s*\(?(\(\s*\))?\s*$`? -/
def arrowTailCheck (rest : Str) : Bool :=
  match rest.dropWhile isPyWs with
  | [] => true
  | '(' :: r2 =>
    (r2.dropWhile isPyWs).isEmpty
      || (match r2 with
          | '(' :: r3 =>
            (match r3.dropWhile isPyWs with
             | ')' :: r4 => (r4.dropWhile isPyWs).isEmpty
             | _ => false)
          | _ => false)
      || (match r2.dropWhile isPyWs with
          | ')' :: r4 => (r4.dropWhile isPyWs).isEmpty
          | _ => false)
  | _ => false

/-- `re.search(r'([^\s…]+)\s*\(?(\(\s*\))?\s*$', t)`: leftmost position
whose maximal name-class run is followed by a match of the tail pattern,
together with that run (group 1). Fuelled as in `patSearchAux`
(`t.length + 1` from `i = 0` always suffices). -/
def arrowTailSearch (t : Str) : Nat → Nat → Option (Nat × Str)
  | 0, _ => none
  | fuel + 1, i =>
    if i < t.length then
      let run := (t.drop i).takeWhile isNameChar
      if !run.isEmpty && arrowTailCheck ((t.drop i).drop run.length) then
        some (i, run)
      else arrowTailSearch t fuel (i + 1)
    else none

/-- `_parse_assignee(input) or _parse_function_name(input)`. -/
def pspIdent (input : Str) : M (Option Str) := do
  match ← parseAssignee input with
  | some s => if s ≠ [] then return (some s) else parseFunctionName input
  | none => parseFunctionName input

/-- `parse_strategy_params(input, take_inner)`. -/
def parse_strategy_params (input : Str) (take_inner : Bool) :
    M (Option Strat) := do
  let (param?, input) ←
    if take_inner then do
      let ar1 ← find_all_not_in_parens_or_strings input (.s (str "=>"))
      let ar2 ← find_all_not_in_parens_or_strings input (.s (str "->"))
      let arrows := ar1 ++ ar2
      match arrows.getLast? with
      | some a =>
        match arrowTailSearch (pySliceTo input a)
            ((pySliceTo input a).length + 1) 0 with
        | some (i, g1) => pure (some g1, pyRStrip (pySliceTo input (i : Int)))
        | none => pure ((none : Option Str), input)
      | none => pure ((none : Option Str), input)
    else pure ((none : Option Str), input)
  match (match param? with
         | some p => if p = [] then none else some p
         | none => none) with
  | some p => do
      let ident ← pspIdent input
      return some { identifier_str := ident, param_str := some p }
  | none => do
      let parens ← (if take_inner then rfind_matching_parens input '(' ')'
                    else find_matching_parens input '(' ')')
      match parens with
      | none => return none
      | some pr => do
          let param := pySlice input ((pr.1 : Int) + 1) (pr.2 : Int)
          let input := pyRStrip (pySliceTo input (pr.1 : Int))
          let ident ← pspIdent input
          return some { identifier_str := ident, param_str := some param }

/-- `parse_strategy_fallback(input, take_inner)`. -/
def parse_strategy_fallback (input : Str) (_take_inner : Bool) : Strat :=
  { param_str := some input }

/-- A descriptor carrying its `display_key` flag, as set during
`create_log_statement`'s final assembly. -/
structure DPDescr where
  name : Str
  type : PType
  display_key : Bool
deriving DecidableEq

/-- The first truthy strategy of Python's `or`-chain. -/
def firstSome (l : List (Option Strat)) : Option Strat :=
  match l with
  | [] => none
  | some s :: _ => some s
  | none :: rest => firstSome rest

/-- `strat = strat or {'display_key': True}`: the dict used when no
strategy record was produced (its `get`s all return `None`). -/
def stratOrDefault (s? : Option Strat) : Strat :=
  match s? with
  | some s => s
  | none => { identifier_str := none, param_str := none }

/-- The `display_key` assembly of `create_log_statement`: every descriptor
starts with `display_key = True`; when there is exactly one descriptor and
its name equals the strategy's `identifier_str`, that flag is turned off. -/
def clsDisplay (strat : Strat) (params : List PDescr) : List DPDescr :=
  match params.map (fun d => DPDescr.mk d.name d.type true) with
  | [d] =>
    let eqId : Bool := match strat.identifier_str with
      | some s => d.name == s
      | none => false
    if eqId then [{ d with display_key := false }] else [d]
  | l => l

/-- `strat.get('param_str', '')`. -/
def paramStrOf (s : Strat) : Str :=
  match s.param_str with
  | some p => p
  | none => []

/-- The override and final assembly of `create_log_statement`: if the
parse produced exactly one descriptor while both InterestingValue and
SimpleVariable were derivable (so the chosen strategy is not the
SimpleVariable record itself), switch to SimpleVariable and re-run
`parse_params` — with its default `_flowtype_enabled=True`, as in
`parse_params(strat.get('param_str', ''))`. -/
def clsOverride (strat_value strat_simple_var strat? : Option Strat)
    (params : List PDescr) : M (Strat × List DPDescr) :=
  match strat_value, strat_simple_var with
  | some _, some sv =>
    if params.length = 1 then do
      let ps ← parse_params (paramStrOf sv)
      pure (stratOrDefault (some sv), clsDisplay (stratOrDefault (some sv)) ps)
    else
      pure (stratOrDefault strat?, clsDisplay (stratOrDefault strat?) params)
  | _, _ =>
    pure (stratOrDefault strat?, clsDisplay (stratOrDefault strat?) params)

/-- `params = parse_params(strat.get('param_str', ''), flowtype_enabled)`
for the winning strategy, then the override. -/
def clsParse (flowtype_enabled : Bool)
    (strat_value strat_simple_var strat? : Option Strat) :
    M (Strat × List DPDescr) := do
  let params ← match strat? with
    | some strat => parse_params (paramStrOf strat) flowtype_enabled
    | none => pure []
  clsOverride strat_value strat_simple_var strat? params

/-- The lazy tail of the strategy dispatch: `strat_params` (coffee-call,
then parenthesis form) and `strat_coffee_return` (the fallback) are only
computed when both InterestingValue and SimpleVariable came back null —
otherwise both stay `None` — and the first truthy strategy of the
`or`-chain `strat_value or strat_simple_var or strat_params or
strat_coffee_return` wins. -/
def clsDispatch (input : Str) (take_inner flowtype_enabled : Bool)
    (strat_value strat_simple_var : Option Strat) :
    M (Strat × List DPDescr) := do
  if strat_value = none ∧ strat_simple_var = none then do
    let c ← parse_strategy_params_coffee input take_inner
    let strat_params ← (match c with
      | some s => pure (some s)
      | none => parse_strategy_params input take_inner)
    clsParse flowtype_enabled strat_value strat_simple_var
      (firstSome [strat_value, strat_simple_var, strat_params,
        some (parse_strategy_fallback input take_inner)])
  else
    clsParse flowtype_enabled strat_value strat_simple_var
      (firstSome [strat_value, strat_simple_var, none, none])

/-- `create_log_statement` up to (and including) the `display_key`
assembly: the strategy record actually used and the descriptors with their
display flags. The rendering below consumes exactly this. -/
def create_log_statement_core (input : Str)
    (take_inner flowtype_enabled : Bool) : M (Strat × List DPDescr) := do
  let input ← clean_line input
  let strat_value ← parse_strategy_value input take_inner
  let strat_simple_var ← parse_strategy_simple_var input take_inner
  clsDispatch input take_inner flowtype_enabled strat_value strat_simple_var

/-- `', '.join(args)`. -/
def joinComma (l : List Str) : Str :=
  match l with
  | [] => []
  | [x] => x
  | x :: y :: rest => x ++ str ", " ++ joinComma (y :: rest)

/-- One rendered argument: the raw name for strings and suppressed keys,
otherwise the `'name:', name` label pair. -/
def render_param (p : DPDescr) : Str :=
  if p.type = .string ∨ p.display_key = false then p.name
  else ['\''] ++ pyReplaceChar (shorten p.name) '\'' ['\\', '\'']
    ++ [':', '\''] ++ str ", " ++ p.name

/-- The final rendering of `create_log_statement`: resolve the identifier
(`strat.get('identifier_str') or alt_identifier`), shorten and escape it,
and join the argument list. -/
def renderLog (alt_identifier : Str) (strat : Strat)
    (params : List DPDescr) : Str :=
  let idBase := match strat.identifier_str with
    | some s => if s = [] then alt_identifier else s
    | none => alt_identifier
  let identifier := pyReplaceChar (shorten (clean_identifier idBase)) '\''
    ['\\', '\'']
  let args := [['\''] ++ identifier ++ ['\'']] ++ params.map render_param
  str "console.log(" ++ joinComma args ++ [')']

/-- `core.create_log_statement(input, alt_identifier, take_inner,
flowtype_enabled)`. -/
def create_log_statement (input alt_identifier : Str)
    (take_inner flowtype_enabled : Bool) : M Str := do
  let (strat, params) ← create_log_statement_core input take_inner
    flowtype_enabled
  return renderLog alt_identifier strat params

/-- Modelled from the spec's words for C3 (the behaviour the claim
asserts, to be compared with `create_log_statement`): identical in every
way except that the single-descriptor override's re-run of `parse_params`
is "made with the caller-supplied flowtype_enabled flag" instead of
`parse_params`' default. -/
def create_log_statement_claimC3 (input alt_identifier : Str)
    (take_inner flowtype_enabled : Bool) : M Str := do
  let cl ← clean_line input
  let strat_value ← parse_strategy_value cl take_inner
  let strat_simple_var ← parse_strategy_simple_var cl take_inner
  let (strat_params, strat_coffee_return) ←
    if strat_value = none ∧ strat_simple_var = none then do
      let c ← parse_strategy_params_coffee cl take_inner
      let p ← (match c with
        | some s => pure (some s)
        | none => parse_strategy_params cl take_inner)
      pure (p, some (parse_strategy_fallback cl take_inner))
    else pure ((none : Option Strat), (none : Option Strat))
  let strat? := firstSome [strat_value, strat_simple_var, strat_params,
    strat_coffee_return]
  let params ← match strat? with
    | some strat => parse_params (paramStrOf strat) flowtype_enabled
    | none => pure []
  let (strat?, params) ←
    match strat_value, strat_simple_var with
    | some _, some sv =>
      if params.length = 1 then do
        let ps ← parse_params (paramStrOf sv) flowtype_enabled
        pure (some sv, ps)
      else pure (strat?, params)
    | _, _ => pure (strat?, params)
  return renderLog alt_identifier (stratOrDefault strat?)
    (clsDisplay (stratOrDefault strat?) params)

/-! ## Theorems -/

theorem pure_ok {α : Type} {a b : α} : (pure a : M α) = .ok b ↔ a = b := by
  constructor
  · intro h
    injection h
  · intro h
    rw [h]
    rfl

theorem error_ne_ok {α : Type} {b : α} : ¬ ((Except.error () : M α) = .ok b) := by
  intro h
  injection h

theorem ok_bind {α β : Type} (a : α) (f : α → M β) :
    ((Except.ok a : M α) >>= f) = f a := rfl

theorem map_ok {α β : Type} (f : α → β) (a : α) :
    (f <$> (Except.ok a : M α)) = .ok (f a) := rfl

/-- Specification-side helper for C10: keep, left to right, only the first
descriptor bearing each name (`seen` collects names already taken). -/
def dedupFirstByName (seen : List Str) : List PDescr → List PDescr
  | [] => []
  | d :: rest =>
    if seen.contains d.name then dedupFirstByName seen rest
    else d :: dedupFirstByName (d.name :: seen) rest

theorem filterLoop_eq_dedupFirst (l : List PDescr) :
    ∀ seen, filterLoop seen l
      = dedupFirstByName seen (l.filter (fun d => filterPass d.name)) := by
  induction l with
  | nil => intro seen; rfl
  | cons d rest ih =>
    intro seen
    by_cases hp : filterPass d.name
    · by_cases hs : seen.contains d.name
      · simp [filterLoop, dedupFirstByName, hp, hs, ih]
      · simp [filterLoop, dedupFirstByName, hp, hs, ih]
    · by_cases hs : seen.contains d.name
      · simp [filterLoop, dedupFirstByName, hp, hs, ih]
      · simp [filterLoop, dedupFirstByName, hp, hs, ih]

theorem filterLoop_sublist (l : List PDescr) :
    ∀ seen, (filterLoop seen l).Sublist l := by
  induction l with
  | nil => intro seen; simp [filterLoop]
  | cons d rest ih =>
    intro seen
    rw [filterLoop]
    by_cases hc : (!(seen.contains d.name) && filterPass d.name) = true
    · rw [if_pos hc]
      exact (ih (d.name :: seen)).cons₂ d
    · rw [if_neg hc]
      exact (ih seen).cons d

theorem filterLoop_mem_pass {l : List PDescr} {d : PDescr} :
    ∀ {seen}, d ∈ filterLoop seen l → filterPass d.name = true := by
  induction l with
  | nil => intro seen h; simp [filterLoop] at h
  | cons x rest ih =>
    intro seen h
    rw [filterLoop] at h
    by_cases hc : (!(seen.contains x.name) && filterPass x.name) = true
    · rw [if_pos hc] at h
      rcases List.mem_cons.1 h with h1 | h2
      · subst h1
        simp only [Bool.and_eq_true] at hc
        exact hc.2
      · exact ih h2
    · rw [if_neg hc] at h
      exact ih h

theorem filterLoop_names_nodup (l : List PDescr) :
    ∀ seen, ((filterLoop seen l).map (fun d => d.name)).Nodup
      ∧ ∀ d ∈ filterLoop seen l, d.name ∉ seen := by
  induction l with
  | nil => intro seen; simp [filterLoop]
  | cons x rest ih =>
    intro seen
    rw [filterLoop]
    by_cases hc : (!(seen.contains x.name) && filterPass x.name) = true
    · rw [if_pos hc]
      obtain ⟨hnd, hns⟩ := ih (x.name :: seen)
      simp only [Bool.and_eq_true, Bool.not_eq_true'] at hc
      refine ⟨?_, ?_⟩
      · simp only [List.map_cons, List.nodup_cons]
        refine ⟨?_, hnd⟩
        intro hmem
        obtain ⟨d, hd, hdn⟩ := List.mem_map.1 hmem
        exact hns d hd (by simp [hdn])
      · intro d hd
        rcases List.mem_cons.1 hd with h1 | h2
        · subst h1
          intro hmem
          have hc1 := hc.1
          simp at hc1
          exact hc1 hmem
        · intro hmem
          exact hns d h2 (by simp [hmem])
    · rw [if_neg hc]
      exact ih seen

theorem ppBase_shape {input : Str} {flow : Bool} {r : List PDescr}
    (h : ppBase input flow = .ok r) : ∃ l, r = filter_params l := by
  rw [ppBase] at h
  split at h
  · rw [pure_ok] at h
    exact ⟨[], h.symm⟩
  · obtain ⟨a, ha, h⟩ := bind_ok.1 h
    obtain ⟨b, hb, h⟩ := bind_ok.1 h
    rw [pure_ok] at h
    exact ⟨_, h.symm⟩

/-- Every successful `parse_params` result is a `filter_params` image
(every `return` in the source goes through `filter_params`, and the empty
returns are `filter_params []`). -/
theorem ppGo_shape {fuel : Nat} {s : Str} {fl : Bool} {r : List PDescr}
    (h : ppGo fuel s fl = .ok r) : ∃ l, r = filter_params l := by
  match fuel with
  | 0 => exact absurd h error_ne_ok
  | fuel + 1 =>
    rw [ppGo] at h
    obtain ⟨a, _, h⟩ := bind_ok.1 h
    split at h
    · rw [pure_ok] at h
      exact ⟨[], h.symm⟩
    · obtain ⟨b, _, h⟩ := bind_ok.1 h
      obtain ⟨bi, bf⟩ := b
      obtain ⟨c, _, h⟩ := bind_ok.1 h
      split at h
      · exact ppBase_shape h
      · obtain ⟨e, _, h⟩ := bind_ok.1 h
        rw [pure_ok] at h
        exact ⟨_, h.symm⟩

theorem pyReplaceChar_eq_self {s : Str} {old : Char} {new : Str}
    (h : ∀ c ∈ s, c ≠ old) : pyReplaceChar s old new = s := by
  induction s with
  | nil => rfl
  | cons c rest ih =>
    have hc : c ≠ old := h c (by simp)
    have hr := ih (fun x hx => h x (by simp [hx]))
    simp only [pyReplaceChar, List.foldr_cons, if_neg hc] at *
    simp [hr]

theorem filterPass_spec {name : Str} (h : filterPass name = true) :
    pyStripChars quoteBracketChars name ≠ []
      ∧ name ∉ constantNames
      ∧ ¬ ['.'].isPrefixOf name
      ∧ ¬ ['.'].isSuffixOf name
      ∧ pyIsDigit (pyReplaceChar name '.' []) = false := by
  simp only [filterPass, Bool.and_eq_true, Bool.not_eq_true'] at h
  obtain ⟨⟨⟨⟨h1, h2⟩, h3⟩, h4⟩, h5⟩ := h
  refine ⟨?_, ?_, ?_, ?_, h5⟩
  · intro he
    rw [he] at h1
    simp at h1
  · intro hm
    simp at h2
    exact h2 hm
  · simp [h3]
  · simp [h4]

/-- C5: no descriptor returned by `parse_params` is named `true`, `false`,
`null` or `undefined`, none is purely numeric, and none has a name that is
empty once the quote and bracket characters are stripped from it. -/
theorem parse_params_filters_constants (input : Str) (fl : Bool)
    (r : List PDescr) (d : PDescr) (h : parse_params input fl = .ok r)
    (hd : d ∈ r) :
    d.name ∉ constantNames
      ∧ pyIsDigit d.name = false
      ∧ pyStripChars quoteBracketChars d.name ≠ [] := by
  obtain ⟨l, rfl⟩ := ppGo_shape h
  have hp := filterLoop_mem_pass hd
  obtain ⟨h1, h2, _, _, h5⟩ := filterPass_spec hp
  refine ⟨h2, ?_, h1⟩
  by_cases hdig : pyIsDigit d.name = true
  · exfalso
    have hrep : pyReplaceChar d.name '.' [] = d.name := by
      apply pyReplaceChar_eq_self
      intro c hc hcd
      simp only [pyIsDigit, Bool.and_eq_true, List.all_eq_true] at hdig
      have hcdig := hdig.2 c hc
      rw [hcd] at hcdig
      simp at hcdig
    rw [hrep, hdig] at h5
    simp at h5
  · simpa using hdig

/-- Witness for C5: `parse_params('true, 17, x')` keeps only `x`. -/
theorem parse_params_filters_constants_witness :
    (str "x") ∉ constantNames ∧ pyIsDigit (str "x") = false
      ∧ pyStripChars quoteBracketChars (str "x") ≠ [] :=
  parse_params_filters_constants (str "true, 17, x") true
    [⟨str "x", .statement⟩] ⟨str "x", .statement⟩ rfl (by simp)

/-- C6: the names of the descriptors returned by one `parse_params` call
are pairwise distinct under exact, case-sensitive string equality. -/
theorem parse_params_names_distinct (input : Str) (fl : Bool)
    (r : List PDescr) (h : parse_params input fl = .ok r) :
    ((r.map (fun d => d.name)).Pairwise (fun a b => a ≠ b)) := by
  obtain ⟨l, rfl⟩ := ppGo_shape h
  exact (filterLoop_names_nodup l []).1

/-- Witness for C6: names differing only in letter case are both kept and
count as distinct. -/
theorem parse_params_names_distinct_witness :
    parse_params (str "foo, FOO") true
        = .ok [⟨str "foo", .statement⟩, ⟨str "FOO", .statement⟩]
      ∧ (([⟨str "foo", .statement⟩, ⟨str "FOO", .statement⟩] : List PDescr).map
          (fun d => d.name)).Pairwise (fun a b => a ≠ b) :=
  ⟨rfl, parse_params_names_distinct (str "foo, FOO") true _ rfl⟩

/-- C9: `parse_params` never returns a name with a leading or trailing
dot, and `filter_params` silently discards any descriptor whose name has
one. -/
theorem parse_params_no_dot_names :
    (∀ (input : Str) (fl : Bool) (r : List PDescr) (d : PDescr),
        parse_params input fl = .ok r → d ∈ r →
          ¬ (['.'].isPrefixOf d.name ∨ ['.'].isSuffixOf d.name))
    ∧ (∀ (l : List PDescr) (d : PDescr),
        (['.'].isPrefixOf d.name ∨ ['.'].isSuffixOf d.name) →
          d ∉ filter_params l) := by
  constructor
  · intro input fl r d h hd
    obtain ⟨l, rfl⟩ := ppGo_shape h
    have hp := filterLoop_mem_pass hd
    obtain ⟨_, _, h3, h4, _⟩ := filterPass_spec hp
    intro hc
    rcases hc with hc | hc
    · exact h3 hc
    · exact h4 hc
  · intro l d hbad hmem
    have hp := filterLoop_mem_pass hmem
    obtain ⟨_, _, h3, h4, _⟩ := filterPass_spec hp
    rcases hbad with hc | hc
    · exact h3 hc
    · exact h4 hc

/-- Witness for C9: `parse_params('.x, y., z')` keeps only `z`, and a
dotted name is dropped by `filter_params`. -/
theorem parse_params_no_dot_names_witness :
    ¬ (['.'].isPrefixOf (str "z") ∨ ['.'].isSuffixOf (str "z"))
      ∧ (⟨str ".x", .statement⟩ : PDescr)
          ∉ filter_params [⟨str ".x", .statement⟩] :=
  ⟨parse_params_no_dot_names.1 (str ".x, y., z") true
      [⟨str "z", .statement⟩] ⟨str "z", .statement⟩ rfl (by simp),
    parse_params_no_dot_names.2 [⟨str ".x", .statement⟩]
      ⟨str ".x", .statement⟩ (Or.inl (by decide))⟩

/-- C10 as stated is false: when several input descriptors share a name
that the filter rejects, no occurrence at all is kept — here two
descriptors named `true` both disappear, so it is not the case that
"exactly the first occurrence is kept". -/
theorem filter_params_counterexample_c10 :
    filter_params [⟨str "true", .statement⟩, ⟨str "true", .statement⟩] = []
      ∧ (⟨str "true", .statement⟩ : PDescr) ∈
          [(⟨str "true", .statement⟩ : PDescr), ⟨str "true", .statement⟩]
      ∧ ([] : List PDescr) ≠ [⟨str "true", .statement⟩] := by
  refine ⟨rfl, by simp, by simp⟩

/-- C10 amended: `filter_params` returns a subsequence of its input (so
surviving descriptors keep their relative order), and it equals the
first-occurrence-per-name deduplication of the descriptors whose names
pass the per-name filter — at most the first occurrence of each name is
kept, and none when the name fails the filter. -/
theorem filter_params_subsequence_first_kept (l : List PDescr) :
    (filter_params l).Sublist l
      ∧ filter_params l
          = dedupFirstByName [] (l.filter (fun d => filterPass d.name)) :=
  ⟨filterLoop_sublist l [], filterLoop_eq_dedupFirst l []⟩

theorem dropWhile_eq_self_of_none {p : Char → Bool} {l : Str}
    (h : ∀ c ∈ l, p c = false) : l.dropWhile p = l := by
  cases l with
  | nil => rfl
  | cons c rest => simp [List.dropWhile_cons, h c (by simp)]

theorem pyStripChars_eq_self {chars s : Str}
    (h : ∀ c ∈ s, chars.contains c = false) : pyStripChars chars s = s := by
  have h2 : ∀ c ∈ s.reverse, chars.contains c = false := by
    intro c hc; exact h c (List.mem_reverse.mp hc)
  unfold pyStripChars
  rw [dropWhile_eq_self_of_none h, dropWhile_eq_self_of_none h2,
    List.reverse_reverse]

theorem pyStrip_eq_self {s : Str} (h : ∀ c ∈ s, isPyWs c = false) :
    pyStrip s = s := by
  have h2 : ∀ c ∈ s.reverse, isPyWs c = false := by
    intro c hc; exact h c (List.mem_reverse.mp hc)
  unfold pyStrip
  rw [dropWhile_eq_self_of_none h, dropWhile_eq_self_of_none h2,
    List.reverse_reverse]

theorem pyRStrip_eq_self {s : Str} (h : ∀ c ∈ s, isPyWs c = false) :
    pyRStrip s = s := by
  have h2 : ∀ c ∈ s.reverse, isPyWs c = false := by
    intro c hc; exact h c (List.mem_reverse.mp hc)
  unfold pyRStrip
  rw [dropWhile_eq_self_of_none h2, List.reverse_reverse]

theorem pyFindAux_ge {s sub : Str} :
    ∀ {fuel st i}, pyFindAux s sub fuel st = some i → st ≤ i := by
  intro fuel
  induction fuel with
  | zero => intro st i h; simp [pyFindAux] at h
  | succ fuel ih =>
    intro st i h
    rw [pyFindAux] at h
    split at h
    · split at h
      · injection h with h
        omega
      · simp at h
    · split at h
      · simp at h
      · split at h
        · injection h with h
          omega
        · have := ih h
          omega

theorem pyFind_ge {s sub : Str} {st : Int} (h : pyFind s sub st ≠ -1) :
    st ≤ pyFind s sub st ∧ 0 ≤ pyFind s sub st := by
  unfold pyFind at h ⊢
  rcases haux : pyFindAux s sub (s.length + 2)
      (if st < 0 then ((s.length : Int) + st).toNat else st.toNat) with _ | i
  · rw [haux] at h
    simp at h
  · show st ≤ (i : Int) ∧ 0 ≤ (i : Int)
    have := pyFindAux_ge haux
    constructor
    · by_cases hst : st < 0
      · rw [if_pos hst] at this
        omega
      · rw [if_neg hst] at this
        omega
    · omega

theorem pyFindAux_none {s sub : Str} {c : Char} (hc : c ∈ sub)
    (habs : c ∉ s) : ∀ fuel st, pyFindAux s sub fuel st = none := by
  intro fuel
  induction fuel with
  | zero => intro st; rfl
  | succ fuel ih =>
    intro st
    rw [pyFindAux]
    rw [if_neg (by rintro rfl; simp at hc)]
    split
    · rfl
    · split
      · rename_i hpre
        exfalso
        have hsub : sub <+: s.drop st := by
          exact List.isPrefixOf_iff_prefix.1 hpre
        exact habs (List.drop_subset st s (hsub.subset hc))
      · exact ih (st + 1)

theorem pyFind_of_not_mem {s sub : Str} {c : Char} (hc : c ∈ sub)
    (habs : c ∉ s) (st : Int) : pyFind s sub st = -1 := by
  rw [pyFind, pyFindAux_none hc habs]

theorem fsInner_ge {s : Str} {d : Char} :
    ∀ {fuel n v}, fsInner s d fuel n = .ok v → v = -1 ∨ n + 1 ≤ v := by
  intro fuel
  induction fuel with
  | zero => intro n v h; exact absurd h error_ne_ok
  | succ fuel ih =>
    intro n v h
    rw [fsInner] at h
    split at h
    · rw [pure_ok] at h
      left
      omega
    · rename_i hne
      split at h
      · rw [pure_ok] at h
        right
        have := (pyFind_ge hne).1
        omega
      · rcases ih h with h1 | h1
        · left
          exact h1
        · right
          have := (pyFind_ge hne).1
          omega

theorem fsOuter_spans {s : Str} {d : Char} :
    ∀ {fuel} {start : Int} {acc l}, fsOuter s d fuel start acc = .ok l →
      ∃ new, l = acc ++ new
        ∧ (∀ p ∈ new, start + 1 ≤ (p.1 : Int))
        ∧ new.Pairwise (fun a b => a.2 < b.1) := by
  intro fuel
  induction fuel with
  | zero => intro start acc l h; exact absurd h error_ne_ok
  | succ fuel ih =>
    intro start acc l h
    rw [fsOuter] at h
    split at h
    · rw [pure_ok] at h
      exact ⟨[], by simp [h], by simp, by simp⟩
    · rename_i hne
      have hfirst := pyFind_ge hne
      split at h
      · obtain ⟨new, rfl, hlo, hpw⟩ := ih h
        refine ⟨new, rfl, fun p hp => ?_, hpw⟩
        have := hlo p hp
        omega
      · obtain ⟨v, hv, h⟩ := bind_ok.1 h
        have hvge := fsInner_ge hv
        split at h
        · rw [pure_ok] at h
          refine ⟨[(((pyFind s [d] (start + 1)).toNat), s.length)], h.symm,
            ?_, by simp⟩
          intro p hp
          simp at hp
          subst hp
          simp
          omega
        · rename_i hvne
          obtain ⟨new, rfl, hlo, hpw⟩ := ih h
          refine ⟨((pyFind s [d] (start + 1)).toNat, v.toNat) :: new, by simp,
            ?_, ?_⟩
          · intro p hp
            rcases List.mem_cons.1 hp with hp | hp
            · subst hp
              simp
              omega
            · have := hlo p hp
              rcases hvge with h1 | h1
              · exact absurd h1 hvne
              · omega
          · refine List.Pairwise.cons ?_ hpw
            intro p hp
            have := hlo p hp
            rcases hvge with h1 | h1
            · exact absurd h1 hvne
            · simp
              omega

theorem fsOuter_skip {s : Str} {d : Char} (habs : d ∉ s) {start : Int}
    {acc : List (Nat × Nat)} :
    fsOuter s d maxIterations start acc = .ok acc := by
  have h200 : maxIterations = 199 + 1 := rfl
  rw [h200, fsOuter, pyFind_of_not_mem (List.mem_singleton_self d) habs]
  rw [if_pos rfl, pure_ok]

theorem find_strings_no_quotes {s : Str}
    (hq : ∀ c ∈ s, c ∉ STRING_DELIMITERS) : find_strings s = .ok [] := by
  rw [find_strings]
  have e1 : fsOuter s '"' maxIterations (-1) [] = .ok [] :=
    fsOuter_skip (fun hm => hq _ hm (by simp [STRING_DELIMITERS]))
  have e2 : fsOuter s '\'' maxIterations (-1) [] = .ok [] :=
    fsOuter_skip (fun hm => hq _ hm (by simp [STRING_DELIMITERS]))
  have e3 : fsOuter s '`' maxIterations (-1) [] = .ok [] :=
    fsOuter_skip (fun hm => hq _ hm (by simp [STRING_DELIMITERS]))
  simp only [STRING_DELIMITERS, List.foldlM, e1, ok_bind, e2, e3, map_ok]
  rfl

/-- C2 is violated by the code: the spans of different quote characters
can overlap — on `"a'b"c'` the double-quote span `(0, 4)` and the
single-quote span `(2, 6)` share offsets 2 through 4. -/
theorem find_strings_counterexample_c2 :
    find_strings (str "\"a'b\"c'") = .ok [(0, 4), (2, 6)]
      ∧ ¬ (([((0 : Nat), (4 : Nat)), (2, 6)]).Pairwise
            (fun a b => a.2 < b.1)) :=
  ⟨rfl, by decide⟩

/-- C2 amended: `find_strings` returns its spans sorted by start offset,
returns the empty list on quote-free text, and the spans produced by the
scan of any single quote character are pairwise non-overlapping (spans of
different quote characters may overlap, as the counterexample shows). -/
theorem find_strings_spans (s : Str) :
    (∀ l, find_strings s = .ok l → l.Pairwise (fun a b => a.1 ≤ b.1))
      ∧ ((∀ c ∈ s, c ∉ STRING_DELIMITERS) → find_strings s = .ok [])
      ∧ (∀ (d : Char) (l : List (Nat × Nat)),
          fsOuter s d maxIterations (-1) [] = .ok l →
            l.Pairwise (fun a b => a.2 < b.1)) := by
  refine ⟨?_, ?_, ?_⟩
  · intro l h
    rw [find_strings] at h
    obtain ⟨ranges, _, h⟩ := bind_ok.1 h
    rw [pure_ok] at h
    subst h
    have hsorted : (sortPairs ranges).Pairwise pairLe :=
      List.sorted_insertionSort pairLe ranges
    exact hsorted.imp (fun hab => by unfold pairLe at hab; omega)
  · exact find_strings_no_quotes
  · intro d l h
    obtain ⟨new, hl, _, hpw⟩ := fsOuter_spans h
    simpa [hl] using hpw

/-- Witness for the amended C2 at concrete inputs. -/
theorem find_strings_spans_witness :
    find_strings (str "abc") = .ok []
      ∧ ([((0 : Nat), (2 : Nat)), (4, 6)]).Pairwise (fun a b => a.1 ≤ b.1)
      ∧ ([((0 : Nat), (2 : Nat))]).Pairwise (fun a b => a.2 < b.1) :=
  ⟨(find_strings_spans (str "abc")).2.1 (by decide),
    (find_strings_spans (str "\"x\" 'y'")).1 [(0, 2), (4, 6)] rfl,
    (find_strings_spans (str "\"x\" 'y'")).2.2 '"' [(0, 2)] rfl⟩

theorem clsDisplay_spec (strat : Strat) (params : List PDescr) (d : DPDescr)
    (hd : d ∈ clsDisplay strat params) :
    d.display_key = false
      ↔ (clsDisplay strat params = [d] ∧ strat.identifier_str = some d.name) := by
  match params with
  | [] => simp [clsDisplay] at hd
  | [p] =>
    rw [clsDisplay] at hd ⊢
    simp only [List.map_cons, List.map_nil] at hd ⊢
    rcases hid : strat.identifier_str with _ | s
    · simp only [hid] at hd ⊢
      simp at hd
      subst hd
      simp
    · simp only [hid] at hd ⊢
      by_cases he : p.name == s
      · simp only [he, if_pos] at hd ⊢
        simp at hd
        subst hd
        simp [eq_of_beq he]
      · simp only [he] at hd ⊢
        simp at hd
        subst hd
        simp
        intro hn
        rw [hn] at he
        simp at he
  | p :: q :: rest =>
    rw [clsDisplay] at hd ⊢
    simp only [List.map_cons] at hd ⊢
    constructor
    · intro hfalse
      exfalso
      simp at hd
      rcases hd with hd | hd | hd
      · rw [hd] at hfalse
        simp at hfalse
      · rw [hd] at hfalse
        simp at hfalse
      · obtain ⟨x, hx, hdx⟩ := hd
        rw [← hdx] at hfalse
        simp at hfalse
    · intro ⟨hlist, _⟩
      exfalso
      have := congrArg List.length hlist
      simp at this

theorem clsOverride_shape {v sv st? : Option Strat} {params : List PDescr}
    {strat : Strat} {ps : List DPDescr}
    (h : clsOverride v sv st? params = .ok (strat, ps)) :
    ∃ params2, ps = clsDisplay strat params2 := by
  have fin : ∀ (s2 : Option Strat) (p2 : List PDescr),
      (pure (stratOrDefault s2, clsDisplay (stratOrDefault s2) p2) : M _)
          = .ok (strat, ps) →
        ∃ params2, ps = clsDisplay strat params2 := by
    intro s2 p2 hp
    rw [pure_ok] at hp
    have h1 : stratOrDefault s2 = strat := congrArg Prod.fst hp
    have h2 : clsDisplay (stratOrDefault s2) p2 = ps := congrArg Prod.snd hp
    exact ⟨p2, by rw [← h2, h1]⟩
  rcases v with _ | vv
  · simp only [clsOverride] at h
    exact fin _ _ h
  · rcases sv with _ | svv
    · simp only [clsOverride] at h
      exact fin _ _ h
    · simp only [clsOverride] at h
      split at h
      · obtain ⟨p2, _, h⟩ := bind_ok.1 h
        exact fin _ _ h
      · exact fin _ _ h

theorem clsParse_shape {fl : Bool} {v sv st? : Option Strat} {strat : Strat}
    {ps : List DPDescr} (h : clsParse fl v sv st? = .ok (strat, ps)) :
    ∃ params, ps = clsDisplay strat params := by
  rcases st? with _ | s
  · simp only [clsParse.eq_def] at h
    obtain ⟨params1, _, h⟩ := bind_ok.1 h
    exact clsOverride_shape h
  · simp only [clsParse.eq_def] at h
    obtain ⟨params1, _, h⟩ := bind_ok.1 h
    exact clsOverride_shape h

theorem clsDispatch_shape {cl : Str} {ti fl : Bool} {v sv : Option Strat}
    {strat : Strat} {ps : List DPDescr}
    (h : clsDispatch cl ti fl v sv = .ok (strat, ps)) :
    ∃ params, ps = clsDisplay strat params := by
  rw [clsDispatch] at h
  split at h
  · obtain ⟨c, _, h⟩ := bind_ok.1 h
    obtain ⟨p, _, h⟩ := bind_ok.1 h
    exact clsParse_shape h
  · exact clsParse_shape h

theorem cls_core_shape {input : Str} {ti fl : Bool} {strat : Strat}
    {ps : List DPDescr}
    (h : create_log_statement_core input ti fl = .ok (strat, ps)) :
    ∃ params, ps = clsDisplay strat params := by
  rw [create_log_statement_core] at h
  obtain ⟨cl, _, h⟩ := bind_ok.1 h
  obtain ⟨v, _, h⟩ := bind_ok.1 h
  obtain ⟨sv, _, h⟩ := bind_ok.1 h
  exact clsDispatch_shape h

/-- C4 amended: in `create_log_statement`'s final assembly a descriptor has
`display_key = false` iff it is the only descriptor and its name equals the
chosen strategy's own `identifier_str`; the comparison is never made
against the host-supplied `alt_identifier`. -/
theorem display_key_suppression (input : Str) (ti fl : Bool)
    (strat : Strat) (ps : List DPDescr) (d : DPDescr)
    (h : create_log_statement_core input ti fl = .ok (strat, ps))
    (hd : d ∈ ps) :
    d.display_key = false
      ↔ (ps = [d] ∧ strat.identifier_str = some d.name) := by
  obtain ⟨params, rfl⟩ := cls_core_shape h
  exact clsDisplay_spec strat params d hd

/-- Witness for the amended C4: on `var foo = 1` the single descriptor
`foo` equals the strategy identifier and its key display is suppressed. -/
theorem display_key_suppression_witness :
    ([⟨str "foo", PType.statement, false⟩] : List DPDescr)
        = [⟨str "foo", PType.statement, false⟩]
      ∧ (Strat.mk (some (str "foo")) (some (str "foo"))).identifier_str
          = some (str "foo") :=
  (display_key_suppression (str "var foo = 1") true true
      ⟨some (str "foo"), some (str "foo")⟩
      [⟨str "foo", .statement, false⟩] ⟨str "foo", .statement, false⟩
      rfl (by simp)).1 rfl

/-- C4 as stated is false: on the line `foo` with `alt_identifier = 'foo'`
the fallback strategy has no `identifier_str`, so the resolved identifier
is the alt identifier `foo` — equal to the single descriptor's name — yet
`display_key` stays true and the rendered output repeats the label, because
the code compares against `strat.get('identifier_str')` (None), not the
resolved identifier. -/
theorem display_key_counterexample_c4 :
    create_log_statement_core (str "foo") true true
        = .ok (⟨none, some (str "foo")⟩, [⟨str "foo", .statement, true⟩])
      ∧ create_log_statement (str "foo") (str "foo") true true
          = .ok (str "console.log('foo', 'foo:', foo)")
      ∧ (str "console.log('foo', 'foo:', foo)")
          ≠ (str "console.log('foo', foo)") :=
  ⟨rfl, rfl, by decide⟩

/-- C3 as stated is false: on `(a:b) = g(x, y)` with
`flowtype_enabled = False` the InterestingValue strategy wins, its parse
yields the single descriptor `g(x, y)`, and the override re-runs
`parse_params` on the SimpleVariable string `(a:b)` — with the default
flowtype flag (True), producing `a`; had the caller's flag been passed, as
the claim asserts, the result would have been `b`. -/
theorem flag_counterexample_c3 :
    create_log_statement (str "(a:b) = g(x, y)") (str "alt") true false
        = .ok (str "console.log('(a:b)', 'a:', a)")
      ∧ create_log_statement_claimC3 (str "(a:b) = g(x, y)") (str "alt")
          true false
          = .ok (str "console.log('(a:b)', 'b:', b)")
      ∧ (str "console.log('(a:b)', 'a:', a)")
          ≠ (str "console.log('(a:b)', 'b:', b)") :=
  ⟨rfl, rfl, by decide⟩

theorem ok_inj {α : Type} {a b : α} (h : (Except.ok a : M α) = .ok b) :
    a = b := by
  injection h

theorem clsParse_no_override {fl : Bool} {v sv : Option Strat}
    {chosen strat : Strat} {ps : List DPDescr} (hvs : v = none ∨ sv = none)
    (h : clsParse fl v sv (some chosen) = .ok (strat, ps))
    (params1 : List PDescr)
    (hpar1 : parse_params (paramStrOf chosen) fl = .ok params1) :
    strat = chosen ∧ ps = clsDisplay chosen params1 := by
  simp only [clsParse.eq_def] at h
  obtain ⟨params0, hpar0, h⟩ := bind_ok.1 h
  obtain rfl : params0 = params1 := ok_inj (hpar0.symm.trans hpar1)
  rcases v with _ | vv
  · rcases sv with _ | s <;> simp only [clsOverride] at h <;>
      rw [pure_ok] at h <;>
      exact ⟨(congrArg Prod.fst h).symm, (congrArg Prod.snd h).symm⟩
  · rcases sv with _ | s
    · simp only [clsOverride] at h
      rw [pure_ok] at h
      exact ⟨(congrArg Prod.fst h).symm, (congrArg Prod.snd h).symm⟩
    · rcases hvs with h1 | h1 <;> simp at h1

theorem clsParse_with_override {fl : Bool} {vS svS chosen strat : Strat}
    {ps : List DPDescr}
    (h : clsParse fl (some vS) (some svS) (some chosen) = .ok (strat, ps))
    (params1 : List PDescr)
    (hpar1 : parse_params (paramStrOf chosen) fl = .ok params1) :
    (params1.length = 1 →
      strat = svS
        ∧ ∃ params2, parse_params (paramStrOf svS) true = .ok params2
            ∧ ps = clsDisplay svS params2)
    ∧ (params1.length ≠ 1 → strat = chosen ∧ ps = clsDisplay chosen params1) := by
  simp only [clsParse.eq_def] at h
  obtain ⟨params0, hpar0, h⟩ := bind_ok.1 h
  obtain rfl : params0 = params1 := ok_inj (hpar0.symm.trans hpar1)
  simp only [clsOverride] at h
  constructor
  · intro hlen
    rw [if_pos hlen] at h
    obtain ⟨ps2, hps2, h⟩ := bind_ok.1 h
    rw [pure_ok] at h
    exact ⟨(congrArg Prod.fst h).symm, ps2, hps2, (congrArg Prod.snd h).symm⟩
  · intro hlen
    rw [if_neg hlen] at h
    rw [pure_ok] at h
    exact ⟨(congrArg Prod.fst h).symm, (congrArg Prod.snd h).symm⟩

/-- C3 amended: the chosen strategy is the first non-null one in the fixed
order InterestingValue, SimpleVariable, coffee-call, parenthesis-call,
Fallback; the winning strategy's param string is parsed with the
caller-supplied `flowtype_enabled` flag, but when the single-descriptor
override fires (exactly one descriptor while InterestingValue was chosen
and SimpleVariable is derivable) the re-run of `parse_params` on the
SimpleVariable string uses `parse_params`' own default flowtype flag
(`True`), not the caller's. -/
theorem strategy_priority_and_flags
    (input : Str) (ti fl : Bool) (cl : Str) (v sv : Option Strat)
    (strat : Strat) (ps : List DPDescr)
    (hcl : clean_line input = .ok cl)
    (hv : parse_strategy_value cl ti = .ok v)
    (hsv : parse_strategy_simple_var cl ti = .ok sv)
    (hcore : create_log_statement_core input ti fl = .ok (strat, ps)) :
    (∀ c, v = some c →
        ∀ params1, parse_params (paramStrOf c) fl = .ok params1 →
          (∀ s, sv = some s → params1.length = 1 →
              strat = s
                ∧ ∃ params2, parse_params (paramStrOf s) true = .ok params2
                    ∧ ps = clsDisplay s params2)
            ∧ ((sv = none ∨ params1.length ≠ 1) →
                strat = c ∧ ps = clsDisplay c params1))
      ∧ (v = none →
          ∀ s, sv = some s →
            ∀ params1, parse_params (paramStrOf s) fl = .ok params1 →
              strat = s ∧ ps = clsDisplay s params1)
      ∧ (v = none → sv = none →
          ∀ pc, parse_strategy_params_coffee cl ti = .ok pc →
            (∀ c, pc = some c →
                ∀ params1, parse_params (paramStrOf c) fl = .ok params1 →
                  strat = c ∧ ps = clsDisplay c params1)
              ∧ (pc = none →
                  ∀ pp, parse_strategy_params cl ti = .ok pp →
                    (∀ c, pp = some c →
                        ∀ params1,
                          parse_params (paramStrOf c) fl = .ok params1 →
                            strat = c ∧ ps = clsDisplay c params1)
                      ∧ (pp = none →
                          ∀ params1, parse_params cl fl = .ok params1 →
                            strat = parse_strategy_fallback cl ti
                              ∧ ps = clsDisplay
                                  (parse_strategy_fallback cl ti) params1))) := by
  rw [create_log_statement_core] at hcore
  obtain ⟨cl', hcl', h⟩ := bind_ok.1 hcore
  obtain rfl : cl = cl' := (ok_inj (hcl'.symm.trans hcl)).symm
  obtain ⟨v', hv', h⟩ := bind_ok.1 h
  obtain rfl : v = v' := (ok_inj (hv'.symm.trans hv)).symm
  obtain ⟨sv', hsv', h⟩ := bind_ok.1 h
  obtain rfl : sv = sv' := (ok_inj (hsv'.symm.trans hsv)).symm
  refine ⟨?_, ?_, ?_⟩
  · rintro c rfl params1 hpar1
    rw [clsDispatch] at h
    rw [if_neg (by simp)] at h
    have hfs : firstSome [some c, sv, none, none] = some c := rfl
    rw [hfs] at h
    refine ⟨?_, ?_⟩
    · rintro s rfl hlen
      exact (clsParse_with_override h params1 hpar1).1 hlen
    · intro hcase
      rcases sv with _ | s
      · exact clsParse_no_override (Or.inr rfl) h params1 hpar1
      · rcases hcase with hnone | hlen
        · simp at hnone
        · exact (clsParse_with_override h params1 hpar1).2 hlen
  · rintro rfl s rfl params1 hpar1
    rw [clsDispatch] at h
    rw [if_neg (by simp)] at h
    have hfs : firstSome [none, some s, none, none] = some s := rfl
    rw [hfs] at h
    exact clsParse_no_override (Or.inl rfl) h params1 hpar1
  · rintro rfl rfl pc hpc
    rw [clsDispatch] at h
    rw [if_pos ⟨rfl, rfl⟩] at h
    obtain ⟨c0, hc0, h⟩ := bind_ok.1 h
    obtain rfl : c0 = pc := ok_inj (hc0.symm.trans hpc)
    obtain ⟨p0, hp0, h⟩ := bind_ok.1 h
    refine ⟨?_, ?_⟩
    · rintro c rfl params1 hpar1
      have hp0' : p0 = some c := (ok_inj hp0).symm
      subst hp0'
      have hfs : firstSome [none, none, some c,
          some (parse_strategy_fallback cl ti)] = some c := rfl
      rw [hfs] at h
      exact clsParse_no_override (Or.inl rfl) h params1 hpar1
    · rintro rfl pp hpp
      have hp0' : parse_strategy_params cl ti = .ok p0 := hp0
      obtain rfl : p0 = pp := ok_inj (hp0'.symm.trans hpp)
      refine ⟨?_, ?_⟩
      · rintro c rfl params1 hpar1
        have hfs : firstSome [none, none, some c,
            some (parse_strategy_fallback cl ti)] = some c := rfl
        rw [hfs] at h
        exact clsParse_no_override (Or.inl rfl) h params1 hpar1
      · rintro rfl params1 hpar1
        have hfs : firstSome [none, none, none,
            some (parse_strategy_fallback cl ti)]
            = some (parse_strategy_fallback cl ti) := rfl
        rw [hfs] at h
        exact clsParse_no_override (Or.inl rfl) h params1 hpar1

/-- Witness for the amended C3 on `var foo = 1`: SimpleVariable wins (the
value strategy is null) and its string is parsed with the caller's flag. -/
theorem strategy_priority_and_flags_witness :
    (⟨some (str "foo"), some (str "foo")⟩ : Strat)
        = ⟨some (str "foo"), some (str "foo")⟩
      ∧ [(⟨str "foo", PType.statement, false⟩ : DPDescr)]
          = clsDisplay ⟨some (str "foo"), some (str "foo")⟩
              [⟨str "foo", PType.statement⟩] :=
  (strategy_priority_and_flags (str "var foo = 1") true true
      (str "var foo = 1") none (some ⟨some (str "foo"), some (str "foo")⟩)
      ⟨some (str "foo"), some (str "foo")⟩
      [⟨str "foo", PType.statement, false⟩]
      rfl rfl rfl rfl).2.1 rfl _ rfl [⟨str "foo", PType.statement⟩] rfl

/-- C7: for every name longer than the configured maximum length (21, the
default), `shorten` returns exactly the first `max − 6` characters, then
`...`, then the last 3 characters — a string of length exactly `max`;
names of length at most the maximum are returned unchanged. -/
theorem shorten_caps_names (input : Str) :
    (max_identifier_length < input.length →
      shorten input =
        input.take (max_identifier_length - 6) ++ str "..."
          ++ input.drop (input.length - 3)
        ∧ (shorten input).length = max_identifier_length)
    ∧ (input.length ≤ max_identifier_length → shorten input = input) := by
  constructor
  · intro h
    have hlen : ¬ input.length ≤ max_identifier_length := by omega
    have h21 : (21 : Nat) < input.length := by
      simpa [max_identifier_length] using h
    have e1 : pySliceTo input ((max_identifier_length : Int) - 6) =
        input.take 15 := by
      have : ((max_identifier_length : Int) - 6) = ((15 : Nat) : Int) := by
        simp [max_identifier_length]
      rw [this, pySliceTo_coe]
    have e2 : pySliceFrom input (-3) = input.drop (input.length - 3) := by
      have : (-3 : Int) = -((3 : Nat) : Int) := by norm_num
      rw [this, pySliceFrom_negCoe input 3 (by omega)]
    constructor
    · rw [shorten, if_neg hlen, e1, e2]
      simp [max_identifier_length]
    · rw [shorten, if_neg hlen, e1, e2]
      have h3 : (str "...").length = 3 := rfl
      simp only [List.length_append, List.length_take, List.length_drop, h3,
        max_identifier_length]
      omega
  · intro h
    simp [shorten, h]

/-- Witness for C7 at concrete inputs. -/
theorem shorten_caps_names_witness :
    (shorten (str "abcdefghijklmnopqrstuvwxyz")).length = 21
      ∧ shorten (str "short") = str "short" :=
  ⟨((shorten_caps_names (str "abcdefghijklmnopqrstuvwxyz")).1 (by decide)).2,
    (shorten_caps_names (str "short")).2 (by decide)⟩

/-! Helper lemmas for C8: on a name whose characters are all alphabetic,
every scanner in `parse_params`'s pipeline comes back empty, so the
pipeline maps the name to itself. -/

theorem isAlpha_ws_false {c : Char} (h : c.isAlpha = true) :
    isPyWs c = false := by
  by_contra hw
  rw [Bool.not_eq_false] at hw
  simp only [isPyWs, Bool.or_eq_true, decide_eq_true_eq] at hw
  rcases hw with ((((hw | hw) | hw) | hw) | hw) | hw <;> subst hw <;>
    exact absurd h (by decide)

theorem plain_no_char {n : Str} (ha : ∀ c ∈ n, c.isAlpha = true) (p : Char)
    (hp : p.isAlpha = false) : p ∉ n := by
  intro hm
  rw [ha p hm] at hp
  exact absurd hp (by decide)

theorem plain_no_ws {n : Str} (ha : ∀ c ∈ n, c.isAlpha = true) :
    ∀ c ∈ n, isPyWs c = false :=
  fun c hc => isAlpha_ws_false (ha c hc)

theorem mem_pySliceFrom {s : Str} {a : Int} {c : Char}
    (h : c ∈ pySliceFrom s a) : c ∈ s := by
  unfold pySliceFrom pySlice at h
  exact List.take_subset _ _ (List.drop_subset _ _ h)

theorem pySliceFrom_zero (s : Str) : pySliceFrom s 0 = s := by
  have h0 : (0 : Int) = ((0 : Nat) : Int) := rfl
  rw [h0, pySliceFrom_coe]
  rfl

theorem patMatchAt_lit_false {s sub : Str} {c : Char} (hc : c ∈ sub)
    (habs : c ∉ s) (i : Nat) : patMatchAt (.lit sub) s i = false := by
  by_cases hp : sub.isPrefixOf (s.drop i) = true
  · exact absurd
      (List.drop_subset i s ((List.isPrefixOf_iff_prefix.1 hp).subset hc))
      habs
  · rw [Bool.not_eq_true] at hp
    simp [patMatchAt, hp]

theorem patMatchAt_eqSimple_false {s : Str} (habs : '=' ∉ s) (i : Nat) :
    patMatchAt .eqSimple s i = false := by
  rcases hg : s.get? i with _ | c
  · have hg2 := hg
    rw [List.get?_eq_getElem?] at hg2
    simp [patMatchAt, hg2]
  · have hne : c ≠ '=' := fun he => habs (he ▸ List.get?_mem hg)
    have hg2 := hg
    rw [List.get?_eq_getElem?] at hg2
    simp [patMatchAt, hg2, hne]

theorem patMatchAt_gtNotAfterEq_false {s : Str} (habs : '>' ∉ s) (i : Nat) :
    patMatchAt .gtNotAfterEq s i = false := by
  rcases hg : s.get? i with _ | c
  · have hg2 := hg
    rw [List.get?_eq_getElem?] at hg2
    simp [patMatchAt, hg2]
  · have hne : c ≠ '>' := fun he => habs (he ▸ List.get?_mem hg)
    have hg2 := hg
    rw [List.get?_eq_getElem?] at hg2
    simp [patMatchAt, hg2, hne]

theorem patMatchAt_wordOp_false {s w : Str}
    (hws : ∀ c ∈ s, isPyWs c = false) (i : Nat) :
    patMatchAt (.wordOp w) s i = false := by
  rcases hg : s.get? (i - 1) with _ | c
  · have hg2 := hg
    rw [List.get?_eq_getElem?] at hg2
    simp [patMatchAt, hg2]
  · have hmem := hws c (List.get?_mem hg)
    have hg2 := hg
    rw [List.get?_eq_getElem?] at hg2
    simp [patMatchAt, hg2, hmem]

theorem patMatchAt_wsWordWs_false {s w : Str}
    (hws : ∀ c ∈ s, isPyWs c = false) (i : Nat) :
    patMatchAt (.wsWordWs w) s i = false := by
  rcases hg : s.get? i with _ | c
  · have hg2 := hg
    rw [List.get?_eq_getElem?] at hg2
    simp [patMatchAt, hg2]
  · have hmem := hws c (List.get?_mem hg)
    have hg2 := hg
    rw [List.get?_eq_getElem?] at hg2
    simp [patMatchAt, hg2, hmem]

theorem patSearchAux_none {p : Pat} {s : Str}
    (h : ∀ i, patMatchAt p s i = false) :
    ∀ fuel i, patSearchAux p s fuel i = none := by
  intro fuel
  induction fuel with
  | zero => intro i; rfl
  | succ f ih =>
    intro i
    rw [patSearchAux, h i]
    simp [ih]

theorem patSearch_none {p : Pat} {s : Str}
    (h : ∀ i, patMatchAt p s i = false) : patSearch p s = -1 := by
  rw [patSearch, patSearchAux_none h]

theorem fnisLoop_neg {input : Str} {char : CharSpec} {rs : List (Nat × Nat)}
    {start : Int} (hpr : fnisProbe input char start = -1) (fuel : Nat) :
    fnisLoop input char rs (fuel + 1) start = .ok (-1) := by
  simp only [fnisLoop, hpr]
  rfl

theorem fnis_neg {input : Str} {char : CharSpec} {start : Int}
    {rs : List (Nat × Nat)} (hfs : find_strings input = .ok rs)
    (hpr : fnisProbe input char start = -1) :
    find_not_in_string input char start = .ok (-1) := by
  rw [find_not_in_string, hfs, ok_bind]
  exact fnisLoop_neg hpr 199

theorem fmp_none {input : Str} {op cl : Char} {start : Int} {rec : Bool}
    {rfuel : Nat} {rs : List (Nat × Nat)}
    (hfs : find_strings input = .ok rs)
    (hop : fnisProbe input (.s [op]) start = -1)
    (hcl : fnisProbe input (.s [cl]) start = -1) :
    fmpGo input op cl (rfuel + 1) start rec = .ok none := by
  rw [fmpGo]
  simp only [fnis_neg hfs hop, fnis_neg hfs hcl, ok_bind]
  rw [if_pos (Or.inl trivial)]
  rfl

theorem fam_empty {input : Str} {op cl : Char}
    (h : find_matching_parens input op cl 0 = .ok none) :
    find_all_matching_parens input op cl 0 = .ok [] := by
  rw [find_all_matching_parens]
  have h200 : maxIterations = 199 + 1 := rfl
  rw [h200, famLoop]
  simp only [h, ok_bind]
  rfl

theorem fans_empty {input : Str} {char : CharSpec} {rs : List (Nat × Nat)}
    (hfs : find_strings input = .ok rs)
    (hpr : fnisProbe input char 0 = -1) :
    find_all_not_in_strings input char = .ok [] := by
  rw [find_all_not_in_strings]
  have h200 : maxIterations = 199 + 1 := rfl
  rw [h200, fansLoop]
  have h0 : (-1 : Int) + 1 = 0 := by norm_num
  rw [h0]
  simp only [fnis_neg hfs hpr, ok_bind]
  rfl

theorem fanpsLoop_empty {input : Str} {char : CharSpec}
    {ap : List (Nat × Nat)} {rs : List (Nat × Nat)}
    (hfs : find_strings input = .ok rs)
    (hpr : fnisProbe input char 0 = -1) :
    fanpsLoop input char ap maxIterations (-1) [] = .ok [] := by
  have h200 : maxIterations = 199 + 1 := rfl
  rw [h200, fanpsLoop]
  have h0 : (-1 : Int) + 1 = 0 := by norm_num
  rw [h0]
  simp only [fnis_neg hfs hpr, ok_bind]
  rfl

theorem fanps_empty {input : Str} {char : CharSpec} {rs : List (Nat × Nat)}
    (hfs : find_strings input = .ok rs)
    (hp1 : find_all_matching_parens input '(' ')' 0 = .ok [])
    (hp2 : find_all_matching_parens input '[' ']' 0 = .ok [])
    (hp3 : find_all_matching_parens input '{' '}' 0 = .ok [])
    (hpr : fnisProbe input char 0 = -1) :
    find_all_not_in_parens_or_strings input char = .ok [] := by
  rw [find_all_not_in_parens_or_strings]
  rw [if_pos (show (['(', '[', '{'] : Str).contains '(' = true by rfl)]
  rw [hp1]
  simp only [ok_bind]
  rw [if_pos (show (['(', '[', '{'] : Str).contains '[' = true by rfl)]
  rw [hp2]
  simp only [ok_bind]
  rw [if_pos (show (['(', '[', '{'] : Str).contains '{' = true by rfl)]
  rw [hp3]
  simp only [ok_bind]
  exact fanpsLoop_empty hfs hpr

theorem iwCheck_false {input : Str} {op cl : Char}
    (h : find_matching_parens input op cl 0 = .ok none) :
    iwCheck input op cl = .ok false := by
  rw [iwCheck]
  simp only [h, ok_bind]
  rfl

theorem is_wrapped_false_of_none {input : Str}
    (h1 : find_matching_parens input '(' ')' 0 = .ok none)
    (h2 : find_matching_parens input '[' ']' 0 = .ok none)
    (h3 : find_matching_parens input '{' '}' 0 = .ok none)
    (pt : Str) : is_wrapped input pt = .ok false := by
  rw [is_wrapped]
  by_cases hc1 : pt.contains '(' = true <;>
    by_cases hc2 : pt.contains '[' = true <;>
      by_cases hc3 : pt.contains '{' = true <;>
        simp [hc1, hc2, hc3, iwCheck_false h1, iwCheck_false h2,
          iwCheck_false h3, ok_bind, pure_ok]


theorem pyContains_eq_false {s sub : Str} (c : Char) (hc : c ∈ sub)
    (habs : c ∉ s) : pyContains s sub = false := by
  simp [pyContains, pyFind_of_not_mem hc habs]

theorem plain_strip_chars {n : Str} (ha : ∀ c ∈ n, c.isAlpha = true)
    {chars : Str} (hch : ∀ p ∈ chars, p.isAlpha = false) :
    pyStripChars chars n = n := by
  apply pyStripChars_eq_self
  intro c hc
  by_contra hcon
  rw [Bool.not_eq_false] at hcon
  have hmem : c ∈ chars := by simpa using hcon
  exact absurd (ha c hc) (by simp [hch c hmem])

theorem plain_find_strings {n : Str} (ha : ∀ c ∈ n, c.isAlpha = true) :
    find_strings n = .ok [] := by
  apply find_strings_no_quotes
  intro c hc hq
  simp [STRING_DELIMITERS] at hq
  rcases hq with rfl | rfl | rfl <;> exact absurd (ha _ hc) (by decide)

theorem plain_fnis_char {n : Str} (ha : ∀ c ∈ n, c.isAlpha = true)
    {sub : Str} (c : Char) (hc : c ∈ sub) (hca : c.isAlpha = false)
    (start : Int) : find_not_in_string n (.s sub) start = .ok (-1) :=
  fnis_neg (plain_find_strings ha)
    (pyFind_of_not_mem hc (plain_no_char ha c hca) start)

theorem plain_fnisProbe_re0 {n : Str} {p : Pat}
    (hp : ∀ i, patMatchAt p n i = false) :
    fnisProbe n (.re p) 0 = -1 := by
  simp [fnisProbe, pySliceFrom_zero, patSearch_none hp]

theorem plain_fnis_re0 {n : Str} (ha : ∀ c ∈ n, c.isAlpha = true) {p : Pat}
    (hp : ∀ i, patMatchAt p n i = false) :
    find_not_in_string n (.re p) 0 = .ok (-1) :=
  fnis_neg (plain_find_strings ha) (plain_fnisProbe_re0 hp)

theorem plain_fmp_none {n : Str} (ha : ∀ c ∈ n, c.isAlpha = true)
    {op cl : Char} (hop : op.isAlpha = false) (hcl : cl.isAlpha = false)
    (start : Int) : find_matching_parens n op cl start = .ok none := by
  rw [find_matching_parens]
  exact fmp_none (plain_find_strings ha)
    (pyFind_of_not_mem (by simp) (plain_no_char ha op hop) start)
    (pyFind_of_not_mem (by simp) (plain_no_char ha cl hcl) start)

theorem plain_fam_empty {n : Str} (ha : ∀ c ∈ n, c.isAlpha = true)
    {op cl : Char} (hop : op.isAlpha = false) (hcl : cl.isAlpha = false) :
    find_all_matching_parens n op cl 0 = .ok [] :=
  fam_empty (plain_fmp_none ha hop hcl 0)

theorem plain_is_wrapped {n : Str} (ha : ∀ c ∈ n, c.isAlpha = true)
    (pt : Str) : is_wrapped n pt = .ok false :=
  is_wrapped_false_of_none (plain_fmp_none ha (by decide) (by decide) 0)
    (plain_fmp_none ha (by decide) (by decide) 0)
    (plain_fmp_none ha (by decide) (by decide) 0) pt

theorem plain_unwrap {n : Str} (ha : ∀ c ∈ n, c.isAlpha = true) (pt : Str) :
    unwrapWhile pt n = .ok n := by
  rw [unwrapWhile]
  rcases n with _ | ⟨c, rest⟩
  · rfl
  · rw [unwrapWhileF]
    rw [if_neg (by simp)]
    simp only [plain_is_wrapped ha pt, ok_bind]
    rfl

theorem plain_fans_empty {n : Str} (ha : ∀ c ∈ n, c.isAlpha = true)
    {sub : Str} (c : Char) (hc : c ∈ sub) (hca : c.isAlpha = false) :
    find_all_not_in_strings n (.s sub) = .ok [] :=
  fans_empty (plain_find_strings ha)
    (pyFind_of_not_mem hc (plain_no_char ha c hca) 0)

theorem plain_cpBalance {n : Str} (ha : ∀ c ∈ n, c.isAlpha = true)
    {op cl : Char} (hop : op.isAlpha = false) (hcl : cl.isAlpha = false) :
    cpBalance n op cl = .ok n := by
  rw [cpBalance]
  simp only [plain_fans_empty ha op (List.mem_singleton_self op) hop,
    plain_fans_empty ha cl (List.mem_singleton_self cl) hcl, ok_bind]
  rfl

theorem plain_fanps_char {n : Str} (ha : ∀ c ∈ n, c.isAlpha = true)
    {sub : Str} (c : Char) (hc : c ∈ sub) (hca : c.isAlpha = false) :
    find_all_not_in_parens_or_strings n (.s sub) = .ok [] :=
  fanps_empty (plain_find_strings ha)
    (plain_fam_empty ha (by decide) (by decide))
    (plain_fam_empty ha (by decide) (by decide))
    (plain_fam_empty ha (by decide) (by decide))
    (pyFind_of_not_mem hc (plain_no_char ha c hca) 0)

theorem plain_fanps_re {n : Str} (ha : ∀ c ∈ n, c.isAlpha = true) {p : Pat}
    (hp : ∀ i, patMatchAt p n i = false) :
    find_all_not_in_parens_or_strings n (.re p) = .ok [] :=
  fanps_empty (plain_find_strings ha)
    (plain_fam_empty ha (by decide) (by decide))
    (plain_fam_empty ha (by decide) (by decide))
    (plain_fam_empty ha (by decide) (by decide))
    (plain_fnisProbe_re0 hp)


theorem pure_def {α : Type} (a : α) : (pure a : M α) = Except.ok a := rfl

theorem plain_not_dots {n : Str} (ha : ∀ c ∈ n, c.isAlpha = true)
    (hne : n ≠ []) : (str "...").isPrefixOf n = false := by
  rcases n with _ | ⟨c, rest⟩
  · exact absurd rfl hne
  · have hc : ('.' == c) = false := by
      simp only [beq_eq_false_iff_ne, ne_eq]
      intro he
      exact absurd (ha c (by simp)) (by rw [← he]; decide)
    show (('.' :: '.' :: '.' :: []).isPrefixOf (c :: rest)) = false
    simp [List.isPrefixOf, hc]

theorem plain_not_destructFlow {n : Str} (ha : ∀ c ∈ n, c.isAlpha = true) :
    matchesDestructFlow n = false := by
  rcases n with _ | ⟨c, rest⟩
  · rfl
  · have hc : c ≠ '{' := by
      intro he
      exact absurd (ha c (by simp)) (by rw [he]; decide)
    simp [matchesDestructFlow, hc]

theorem plain_asMatch {n : Str} (ha : ∀ c ∈ n, c.isAlpha = true) :
    asMatch n = none := by
  unfold asMatch
  split
  · rename_i rest
    have hws : ∀ c ∈ rest, isPyWs c = false := fun c hc =>
      isAlpha_ws_false (ha c (by simp [hc]))
    have htw : rest.takeWhile isPyWs = [] := by
      cases rest with
      | nil => rfl
      | cons r rs => simp [List.takeWhile_cons, hws r (by simp)]
    simp [htw]
  · rfl

theorem plain_clean_param {n : Str} (ha : ∀ c ∈ n, c.isAlpha = true)
    (hne : n ≠ []) : clean_param n = .ok n := by
  have hws := plain_no_ws ha
  have h1 : ∀ p ∈ (str " \t;"), p.isAlpha = false := by decide
  have h2 : ∀ p ∈ (str " \t;?"), p.isAlpha = false := by decide
  have hwsw : ∀ w : Str,
      find_not_in_string n (.re (.wsWordWs w)) 0 = .ok (-1) :=
    fun w => plain_fnis_re0 ha (patMatchAt_wsWordWs_false hws)
  have heq : find_not_in_string n (.s ['=']) 0 = .ok (-1) :=
    plain_fnis_char ha '=' (List.mem_singleton_self '=') (by decide) 0
  have hif : ∀ {α : Type} (a b : α), (if (-1 : Int) ≠ -1 then a else b) = b :=
    fun a b => if_neg (by simp)
  have hun := plain_unwrap ha ['(', '[', '{']
  have hdots := plain_not_dots ha hne
  have hbif : ∀ {α : Type} (a b : α), (if false = true then a else b) = b :=
    fun a b => by simp
  have hcp1 : cpBalance n '(' ')' = .ok n :=
    plain_cpBalance ha (by decide) (by decide)
  have hcp2 : cpBalance n '[' ']' = .ok n :=
    plain_cpBalance ha (by decide) (by decide)
  have hcp3 : cpBalance n '{' '}' = .ok n :=
    plain_cpBalance ha (by decide) (by decide)
  simp only [clean_param, plain_strip_chars ha h1, hwsw, ok_bind, hif,
    hun, heq, if_neg hne, plain_strip_chars ha h2, hdots, hbif,
    hcp1, hcp2, hcp3, pure_def]

theorem plain_ppPrepare {n : Str} (ha : ∀ c ∈ n, c.isAlpha = true)
    (hne : n ≠ []) (fl : Bool) : ppPrepare n fl = .ok (n, fl) := by
  have hws := plain_no_ws ha
  have heqs := plain_fanps_re ha
    (patMatchAt_eqSimple_false (plain_no_char ha '=' (by decide)))
  have hw := plain_is_wrapped ha ['{', '[']
  have hdf := plain_not_destructFlow ha
  have hbif : ∀ {α : Type} (a b : α), (if false = true then a else b) = b :=
    fun a b => by simp
  simp only [ppPrepare, heqs, ok_bind, pure_def, ppDestructRanges,
    ppRemoveRanges, List.reverse_nil, List.foldl_nil, pyStrip_eq_self hws,
    if_neg hne, hw, hdf, hbif]

theorem segStep_fold_empty {n : Str} :
    ∀ (ds : List Delim),
      (∀ d ∈ ds, find_all_not_in_parens_or_strings n d.spec = .ok []) →
      ∀ acc : List SplitPoint,
        (ds.foldlM (fun acc delim => do
          let points ← find_all_not_in_parens_or_strings n delim.spec
          return acc ++ points.map (fun p => SplitPoint.mk p (delimLen delim)))
          acc) = .ok acc := by
  intro ds
  induction ds with
  | nil => intro _ acc; rfl
  | cons d rest ih =>
    intro hall acc
    rw [List.foldlM_cons]
    simp only [hall d (by simp), ok_bind, pure_def, List.map_nil,
      List.append_nil]
    exact ih (fun x hx => hall x (by simp [hx])) acc

theorem plain_ppSplitPoints {n : Str} (ha : ∀ c ∈ n, c.isAlpha = true) :
    ppSplitPoints n = .ok [] := by
  have hws := plain_no_ws ha
  have hall : ∀ d ∈ PARAM_DELIMITERS,
      find_all_not_in_parens_or_strings n d.spec = .ok [] := by
    intro d hd
    fin_cases hd
    · exact plain_fanps_char ha ',' (by decide) (by decide)
    · exact plain_fanps_char ha '+' (by decide) (by decide)
    · exact plain_fanps_char ha '-' (by decide) (by decide)
    · exact plain_fanps_char ha '*' (by decide) (by decide)
    · exact plain_fanps_char ha '/' (by decide) (by decide)
    · exact plain_fanps_char ha '-' (by decide) (by decide)
    · exact plain_fanps_char ha '&' (by decide) (by decide)
    · exact plain_fanps_char ha '|' (by decide) (by decide)
    · exact plain_fanps_char ha '<' (by decide) (by decide)
    · exact plain_fanps_char ha '<' (by decide) (by decide)
    · exact plain_fanps_char ha '>' (by decide) (by decide)
    · exact plain_fanps_char ha '?' (by decide) (by decide)
    · exact plain_fanps_re ha
        (patMatchAt_lit_false (by decide) (plain_no_char ha '=' (by decide)))
    · exact plain_fanps_re ha
        (patMatchAt_lit_false (by decide) (plain_no_char ha '=' (by decide)))
    · exact plain_fanps_re ha
        (patMatchAt_lit_false (by decide) (plain_no_char ha '=' (by decide)))
    · exact plain_fanps_re ha
        (patMatchAt_gtNotAfterEq_false (plain_no_char ha '>' (by decide)))
    · exact plain_fanps_re ha (patMatchAt_wordOp_false hws)
    · exact plain_fanps_re ha (patMatchAt_wordOp_false hws)
    · exact plain_fanps_re ha (patMatchAt_wordOp_false hws)
    · exact plain_fanps_re ha (patMatchAt_wordOp_false hws)
    · exact plain_fanps_re ha (patMatchAt_wordOp_false hws)
  rw [ppSplitPoints]
  exact segStep_fold_empty PARAM_DELIMITERS hall []


theorem plain_ppBase {n : Str} (ha : ∀ c ∈ n, c.isAlpha = true)
    (hne : n ≠ []) (hfn : pyContains n (str "function") = false)
    (hpass : filterPass n = true) (fl : Bool) :
    ppBase n fl = .ok [⟨n, get_param_type n⟩] := by
  have harrow : pyContains n (str "=>") = false :=
    pyContains_eq_false '=' (by decide) (plain_no_char ha '=' (by decide))
  have hcolon : find_all_not_in_parens_or_strings n (.s [':']) = .ok [] :=
    plain_fanps_char ha ':' (by decide) (by decide)
  have hcp := plain_clean_param ha hne
  have ham := plain_asMatch ha
  have hbif : ∀ {α : Type} (a b : α), (if false = true then a else b) = b :=
    fun a b => by simp
  have hfilter : filter_params [⟨n, get_param_type n⟩]
      = [⟨n, get_param_type n⟩] := by
    rw [filter_params, filterLoop, if_pos (by simp [hpass]), filterLoop]
  simp only [ppBase, harrow, hfn, Bool.or_self, hbif, hcolon, ok_bind,
    pure_def, List.head?_nil, ham, hcp, hfilter]

theorem plain_parse_params {n : Str} (ha : ∀ c ∈ n, c.isAlpha = true)
    (hne : n ≠ []) (hfn : pyContains n (str "function") = false)
    (hpass : filterPass n = true) (fl : Bool) :
    parse_params n fl = .ok [⟨n, get_param_type n⟩] := by
  have hws := plain_no_ws ha
  rw [parse_params, ppGo]
  rw [pyStrip_eq_self hws]
  simp only [plain_unwrap ha ['('], ok_bind]
  rw [if_neg hne]
  simp only [plain_ppPrepare ha hne fl, ok_bind]
  simp only [plain_ppSplitPoints ha, ok_bind]
  rw [if_pos (show (sortSplitPoints []).isEmpty = true by rfl)]
  exact plain_ppBase ha hne hfn hpass fl

theorem ppBase_types {input : Str} {flow : Bool} {r : List PDescr}
    (h : ppBase input flow = .ok r) :
    ∀ d ∈ r, d.type = get_param_type d.name := by
  rw [ppBase] at h
  split at h
  · rw [pure_ok] at h
    subst h
    simp
  · obtain ⟨a, _, h⟩ := bind_ok.1 h
    obtain ⟨b, _, h⟩ := bind_ok.1 h
    rw [pure_ok] at h
    subst h
    intro d hd
    have hmem := (filterLoop_sublist _ ([] : List Str)).subset hd
    rw [List.mem_singleton] at hmem
    subst hmem
    rfl

theorem segfold_types {step : List PDescr → Str → M (List PDescr)}
    (hstep : ∀ acc seg r, step acc seg = .ok r →
      (∀ d ∈ acc, d.type = get_param_type d.name) →
      ∀ d ∈ r, d.type = get_param_type d.name) :
    ∀ {segs : List Str} {acc r : List PDescr},
      segs.foldlM step acc = .ok r →
      (∀ d ∈ acc, d.type = get_param_type d.name) →
      ∀ d ∈ r, d.type = get_param_type d.name := by
  intro segs
  induction segs with
  | nil =>
    intro acc r h hacc
    rw [List.foldlM_nil, pure_ok] at h
    subst h
    exact hacc
  | cons sg rest ih =>
    intro acc r h hacc
    rw [List.foldlM_cons] at h
    obtain ⟨acc2, h2, h⟩ := bind_ok.1 h
    exact ih h (hstep acc sg acc2 h2 hacc)

/-- Every descriptor `parse_params` returns carries the type computed by
`get_param_type` from its own name. -/
theorem ppGo_types : ∀ (fuel : Nat) {s : Str} {fl : Bool} {r : List PDescr},
    ppGo fuel s fl = .ok r → ∀ d ∈ r, d.type = get_param_type d.name := by
  intro fuel
  induction fuel with
  | zero => intro s fl r h; exact absurd h error_ne_ok
  | succ fuel ih =>
    intro s fl r h
    rw [ppGo] at h
    obtain ⟨a, _, h⟩ := bind_ok.1 h
    split at h
    · rw [pure_ok] at h
      subst h
      simp
    · obtain ⟨b, _, h⟩ := bind_ok.1 h
      obtain ⟨bi, bf⟩ := b
      obtain ⟨c, _, h⟩ := bind_ok.1 h
      split at h
      · exact ppBase_types h
      · obtain ⟨e, he, h⟩ := bind_ok.1 h
        rw [pure_ok] at h
        subst h
        intro d hd
        have hmem := (filterLoop_sublist _ ([] : List Str)).subset hd
        refine segfold_types ?_ he (by simp) d hmem
        intro acc seg r2 hr hacc
        have hr2 : (if pyStripChars (PARAM_DELIMITERS_STRIP ++ str " \t") seg
              = [] then (pure acc : M (List PDescr))
            else do
              let ps ← ppGo fuel
                (pyStripChars (PARAM_DELIMITERS_STRIP ++ str " \t") seg) bf
              pure (acc ++ ps)) = .ok r2 := hr
        split at hr2
        · rw [pure_ok] at hr2
          subst hr2
          exact hacc
        · obtain ⟨ps, hps, hr2⟩ := bind_ok.1 hr2
          rw [pure_ok] at hr2
          subst hr2
          intro d2 hd2
          rcases List.mem_append.1 hd2 with hd2 | hd2
          · exact hacc d2 hd2
          · exact ih hps d2 hd2


set_option maxRecDepth 10000 in
/-- C8 is violated as stated: on `[[a,b]]` the parser returns exactly one
descriptor, named `a,b` (the inner brackets are unwrapped and the comma is
protected by the remaining bracket pair), but re-parsing that name splits
it at the now-top-level comma into two descriptors, so the round trip is
not the identity. -/
theorem parse_params_counterexample_c8 :
    parse_params (str "[[a,b]]") true = .ok [⟨str "a,b", .statement⟩]
      ∧ parse_params (str "a,b") true
          = .ok [⟨str "a", .statement⟩, ⟨str "b", .statement⟩]
      ∧ ([⟨str "a", .statement⟩, ⟨str "b", .statement⟩] : List PDescr)
          ≠ [⟨str "a,b", .statement⟩] :=
  ⟨rfl, rfl, by decide⟩

/-- C8 amended: the idempotence claim does hold on plainly named atoms.
If `parse_params` returns exactly one descriptor, that descriptor's name
is made of alphabetic characters only and does not contain `function`,
then re-parsing the name with the same flowtype flag returns the identical
one-descriptor list (same name, same kind). Without the restriction the
claim fails: a returned name may still contain delimiter characters that
were protected by brackets in the original input, and re-parsing splits at
them (see the counterexample). -/
theorem parse_params_idempotent_on_plain_names (input : Str) (fl : Bool)
    (d : PDescr) (h : parse_params input fl = .ok [d])
    (ha : ∀ c ∈ d.name, c.isAlpha = true)
    (hfn : pyContains d.name (str "function") = false) :
    parse_params d.name fl = .ok [d] := by
  obtain ⟨l, hl⟩ := ppGo_shape h
  have hdmem : d ∈ filter_params l := by
    rw [← hl]
    simp
  have hpass : filterPass d.name = true := filterLoop_mem_pass hdmem
  have htype : d.type = get_param_type d.name :=
    ppGo_types (input.length + 1) h d (by simp)
  have hne : d.name ≠ [] := by
    intro he
    obtain ⟨h1, _⟩ := filterPass_spec hpass
    rw [he] at h1
    exact h1 rfl
  have hmain := plain_parse_params ha hne hfn hpass fl
  rw [hmain, ← htype]

set_option maxRecDepth 10000 in
/-- Witness for the amended C8: `parse_params('(foo)')` yields the single
plainly named descriptor `foo`, and re-parsing `foo` yields it again. -/
theorem parse_params_idempotent_on_plain_names_witness :
    parse_params (str "(foo)") true = .ok [⟨str "foo", .statement⟩]
      ∧ (∀ c ∈ str "foo", c.isAlpha = true)
      ∧ pyContains (str "foo") (str "function") = false
      ∧ parse_params (str "foo") true = .ok [⟨str "foo", .statement⟩] :=
  ⟨rfl, by decide, by decide,
    parse_params_idempotent_on_plain_names (str "(foo)") true
      ⟨str "foo", .statement⟩ rfl (by decide) (by decide)⟩

set_option maxRecDepth 100000 in
set_option maxHeartbeats 4000000 in
/-- C1 is violated by the code: on a finite line holding one string
literal of 202 slashes, `clean_line`'s comment scan finds `//` inside the
string span at 201 successive offsets, so `find_not_in_string` requests
its 201st iteration, `infinite()`'s ceiling raises, and the exception
propagates out of `create_log_statement`. -/
theorem iteration_ceiling_reachable :
    find_not_in_string (['"'] ++ List.replicate 202 '/' ++ ['"'])
        (.s ['/', '/']) 0 = .error ()
      ∧ create_log_statement (['"'] ++ List.replicate 202 '/' ++ ['"'])
          (str "alt") true true = .error () := by
  constructor <;> rfl

end LogMagic
